import Mathlib

/-!
# The interaction boost handler of the power HAL

A shallow embedding of `power/InteractionHandler.cpp` and machine-checked
statements about it.

The C++ object is embedded as a record that holds its data members together
with the three pieces of its environment that the code acts on: the counter
of the kernel eventfd object behind `mEventFd`, the position of the worker
thread `mThread` inside `Routine`, and the trace of the side-effecting calls
made so far.  Every member function that runs under `mLock` is one atomic
transition of that record; `Routine`, which drops the lock while it polls, is
cut into its atomic steps.

Integers: `int32_t` values are `Int`; the one addition whose operand comes
from the caller unchecked (`duration + 650`) is reduced modulo `2^32`, and
the `long`/`long long` arithmetic of `CalcTimespecDiffMs` on clock readings is
reduced modulo `2^64` (`long` has 64 bits on the device); the latter is the
exact difference whenever the two readings are normalized and at most
9223372036854774 seconds apart (`CalcTimespecDiffMs_exact`).  The other
operations are exact, and stay inside their machine types:
* the `int` difference `mDurationMs - finalDuration` is taken between two
  values of `[1400, 5650]` (`Acquire_difference_fits`);
* the `uint64_t` counter of the eventfd never exceeds 2
  (`eventfd_counter_bounded`).
-/

namespace Power

/-- Modelled from the spec: the enumeration `interaction_state` is declared in
`InteractionHandler.h`, which is not among the sources; the four states are
the spec's `Uninitialized`, `Idle`, `Interacting`, `Waiting`, under the names
the source file uses for them. -/
inductive interaction_state where
  | INTERACTION_STATE_UNINITIALIZED
  | INTERACTION_STATE_IDLE
  | INTERACTION_STATE_INTERACTION
  | INTERACTION_STATE_WAITING
deriving DecidableEq

/-- The two fields of `struct timespec` that the code reads. -/
structure timespec where
  tv_sec : Int
  tv_nsec : Int
deriving DecidableEq

/-- The side-effecting calls of the handler that are recorded in the trace:
the two boost calls, the `write` and `read` on the eventfd, the two
notifications of `mCond` and the `close` of the eventfd. -/
inductive Call where
  | PerfLock
  | PerfRel
  | write_eventfd
  | read_eventfd
  | notify_one
  | notify_all
  | close_eventfd
deriving DecidableEq

/-- The three ways `poll` returns in `WaitForIdle`: `ret > 0` (the eventfd is
readable, the wait was aborted), `ret == 0` (the timeout ran out) and
`ret < 0` (an error). -/
inductive poll_ret where
  | aborted
  | timeout
  | error
deriving DecidableEq

/-- The position of the worker thread inside `Routine`.  `polling` carries the
argument `wait_ms` that `WaitForIdle` was given; `release_call` also remembers
how the `poll` of that `WaitForIdle` returned (the C++ function returns `void`,
the outcome is kept here only so that statements can refer to it). -/
inductive Pc where
  | cond_wait
  | wait_call
  | polling (wait_ms : Int)
  | release_call (wait_ms : Int) (ret : poll_ret)
  | returned
deriving DecidableEq

/-- Modelled from the spec: the class is declared in `InteractionHandler.h`,
which is not among the sources; the data members are the spec's coordinator
fields (`state`, `waitMs`, `durationMs`, `lastTimestamp`, `wakeChannel`) and
the two configuration bounds, under the names the source file uses.
`mEventFd` is the counter of the eventfd object, `mThread` is the worker
thread (`none`: no thread) with its position in `Routine`, and `trace` lists
the calls made so far, newest first. -/
structure InteractionHandler where
  mState : interaction_state
  mWaitMs : Int
  mMinDurationMs : Int
  mMaxDurationMs : Int
  mDurationMs : Int
  mLastTimespec : timespec
  mEventFd : Nat
  mThread : Option Pc
  trace : List Call
deriving DecidableEq

namespace InteractionHandler

open interaction_state

/-- The value of an `int32_t` after an addition that left its range
(two's complement). -/
def wrap_int32 (x : Int) : Int :=
  (x + 2147483648) % 4294967296 - 2147483648

/-- The value of a `long` or `long long` (64 bits, two's complement) after an
operation that left its range. -/
def wrap_long (x : Int) : Int :=
  (x + 9223372036854775808) % 18446744073709551616 - 9223372036854775808

/-- The macro `MSINSEC`. -/
def MSINSEC : Int := 1000

/-- The macro `USINMS`. -/
def USINMS : Int := 1000000

/-- The constructor `InteractionHandler::InteractionHandler()`.  It leaves
`mLastTimespec` unset; the value found there is the parameter.  No eventfd
and no thread exist yet. -/
def ctor (garbage : timespec) : InteractionHandler :=
  { mState := INTERACTION_STATE_UNINITIALIZED
    mWaitMs := 100
    mMinDurationMs := 1400
    mMaxDurationMs := 5650
    mDurationMs := 0
    mLastTimespec := garbage
    mEventFd := 0
    mThread := none
    trace := [] }

/-- The function `InteractionHandler::PerfLock`: two writes to the schedtune
files, recorded as one call. -/
def PerfLock (h : InteractionHandler) : InteractionHandler :=
  { h with trace := Call.PerfLock :: h.trace }

/-- The function `InteractionHandler::PerfRel`. -/
def PerfRel (h : InteractionHandler) : InteractionHandler :=
  { h with trace := Call.PerfRel :: h.trace }

/-- The function `InteractionHandler::CalcTimespecDiffMs`.  The two
differences and the product are computed in `long`, the two `+=` in
`long long`; each operation is reduced to 64 bits.  The division of C
truncates toward zero. -/
def CalcTimespecDiffMs (start end_ : timespec) : Int :=
  let diff_in_us : Int := 0
  let diff_in_us :=
    wrap_long (diff_in_us + wrap_long (wrap_long (end_.tv_sec - start.tv_sec) * MSINSEC))
  let diff_in_us :=
    wrap_long (diff_in_us + (wrap_long (end_.tv_nsec - start.tv_nsec)).tdiv USINMS)
  diff_in_us

/-- The function `InteractionHandler::AbortWaitLocked`: `write` adds 1 to the
counter of the eventfd. -/
def AbortWaitLocked (h : InteractionHandler) : InteractionHandler :=
  { h with mEventFd := h.mEventFd + 1, trace := Call.write_eventfd :: h.trace }

/-- The local variable `finalDuration` of `Acquire` (the statements from
`int inputDuration = duration + 650;` to the end of the three-way branch). -/
def finalDuration (h : InteractionHandler) (duration : Int) : Int :=
  let inputDuration := wrap_int32 (duration + 650)
  if inputDuration > h.mMaxDurationMs then h.mMaxDurationMs
  else if inputDuration > h.mMinDurationMs then inputDuration
  else h.mMinDurationMs

/-- The function `InteractionHandler::Acquire`, with the reading of
`clock_gettime(CLOCK_MONOTONIC, _)` as the parameter `cur_timespec`. -/
def Acquire (duration : Int) (cur_timespec : timespec) (h : InteractionHandler) :
    InteractionHandler :=
  if h.mState = INTERACTION_STATE_UNINITIALIZED then h
  else
    let finalDuration := finalDuration h duration
    if h.mState ≠ INTERACTION_STATE_IDLE ∧ finalDuration ≤ h.mDurationMs ∧
        CalcTimespecDiffMs h.mLastTimespec cur_timespec ≤ h.mDurationMs - finalDuration then h
    else
      let h1 := { h with mLastTimespec := cur_timespec, mDurationMs := finalDuration }
      let h2 :=
        if h1.mState = INTERACTION_STATE_WAITING then AbortWaitLocked h1
        else if h1.mState = INTERACTION_STATE_IDLE then PerfLock h1
        else h1
      { h2 with
        mWaitMs := h2.mDurationMs
        mState := INTERACTION_STATE_INTERACTION
        trace := Call.notify_one :: h2.trace }

/-- The function `InteractionHandler::Release`: `read` on an eventfd resets
its counter to 0. -/
def Release (h : InteractionHandler) : InteractionHandler :=
  if h.mState = INTERACTION_STATE_WAITING then
    { PerfRel h with mState := INTERACTION_STATE_IDLE }
  else
    { h with mEventFd := 0, trace := Call.read_eventfd :: h.trace }

/-- The function `InteractionHandler::WaitForIdle`, for one outcome `ret` of
its `poll`: the result is `none` when `poll` cannot return that way.  `poll`
reports the eventfd readable exactly while its counter is positive, so it
returns `ret > 0` only then and times out only when the counter is 0; a
negative timeout never runs out.  The function changes no member. -/
def WaitForIdle (wait_ms : Int) (ret : poll_ret) (h : InteractionHandler) :
    Option InteractionHandler :=
  match ret with
  | poll_ret.aborted => if 0 < h.mEventFd then some h else none
  | poll_ret.timeout => if h.mEventFd = 0 ∧ 0 ≤ wait_ms then some h else none
  | poll_ret.error => some h

/-- One atomic step of the worker thread in `InteractionHandler::Routine`;
`none` when the thread cannot move (no thread, blocked in `mCond.wait`,
`poll` not able to return as `ret`, or `Routine` has returned).
`cond_wait`: the locked section from `lk.lock()` to `lk.unlock()`;
`wait_call`: the read of `mWaitMs` for the call `WaitForIdle(mWaitMs)`;
`polling`: the return of `poll`; `release_call`: the call `Release()`. -/
def Routine (ret : poll_ret) (h : InteractionHandler) : Option InteractionHandler :=
  match h.mThread with
  | none => none
  | some Pc.cond_wait =>
    if h.mState = INTERACTION_STATE_IDLE then none
    else if h.mState = INTERACTION_STATE_UNINITIALIZED then
      some { h with mThread := some Pc.returned }
    else
      some { h with mState := INTERACTION_STATE_WAITING, mThread := some Pc.wait_call }
  | some Pc.wait_call => some { h with mThread := some (Pc.polling h.mWaitMs) }
  | some (Pc.polling wait_ms) =>
    match WaitForIdle wait_ms ret h with
    | none => none
    | some h1 => some { h1 with mThread := some (Pc.release_call wait_ms ret) }
  | some (Pc.release_call _ _) => some { Release h with mThread := some Pc.cond_wait }
  | some Pc.returned => none

/-- The function `InteractionHandler::Init`; `eventfd_ok` tells whether
`eventfd(0, EFD_NONBLOCK)` succeeds.  The new eventfd has counter 0 and the
new thread stands at the top of `Routine`. -/
def Init (eventfd_ok : Bool) (h : InteractionHandler) : InteractionHandler × Bool :=
  if h.mState ≠ INTERACTION_STATE_UNINITIALIZED then (h, true)
  else if eventfd_ok = false then (h, false)
  else
    ({ h with
        mEventFd := 0
        mState := INTERACTION_STATE_IDLE
        mThread := some Pc.cond_wait }, true)

/-- The function `InteractionHandler::Exit` up to `mCond.notify_all()`: the
locked section and the notification. -/
def Exit (h : InteractionHandler) : InteractionHandler :=
  if h.mState = INTERACTION_STATE_UNINITIALIZED then h
  else
    let h1 := AbortWaitLocked h
    { h1 with
      mState := INTERACTION_STATE_UNINITIALIZED
      trace := Call.notify_all :: h1.trace }

/-- The tail of `InteractionHandler::Exit`: `mThread->join()` returns once
`Routine` has returned, then the eventfd is closed. -/
def Exit_join (h : InteractionHandler) : Option InteractionHandler :=
  if h.mThread = some Pc.returned then
    some { h with mThread := none, trace := Call.close_eventfd :: h.trace }
  else none

/-- The atomic steps of the system: the calls of the public functions by
client threads and the steps of the worker thread. -/
inductive Action where
  | Init (eventfd_ok : Bool)
  | Acquire (duration : Int) (cur_timespec : timespec)
  | Exit
  | Exit_join
  | Routine (ret : poll_ret)
deriving DecidableEq

/-- One step of the system.  `Init` and `Exit` are the lifecycle calls of the
owning service and do not overlap: `Init` does not start while an `Exit` still
waits in `join` (state uninitialized, thread present); there the assignment to
`mThread` would destroy a joinable `std::thread`, which ends the process. -/
def step (a : Action) (h : InteractionHandler) : Option InteractionHandler :=
  match a with
  | Action.Init eventfd_ok =>
    if h.mState = INTERACTION_STATE_UNINITIALIZED ∧ h.mThread ≠ none then none
    else some (Init eventfd_ok h).1
  | Action.Acquire duration cur_timespec => some (Acquire duration cur_timespec h)
  | Action.Exit => some (Exit h)
  | Action.Exit_join => Exit_join h
  | Action.Routine ret => Routine ret h

/-- The execution of a list of steps, `none` when one of them cannot be
taken. -/
def run : List Action → InteractionHandler → Option InteractionHandler
  | [], h => some h
  | a :: rest, h =>
    match step a h with
    | none => none
    | some h1 => run rest h1

/-- The handler after a successful `Init` and one `Acquire(1350)` at the clock
reading 100 s: a hold of 2000 ms accepted at that instant, state
`INTERACTION_STATE_INTERACTION`, worker still at the top of `Routine`. -/
def hold_2000_interaction : InteractionHandler :=
  Acquire 1350 ⟨100, 0⟩ (Init true (ctor ⟨0, 0⟩)).1

/-- The same hold after the worker has set `INTERACTION_STATE_WAITING`, read
`mWaitMs` and entered `poll`. -/
def hold_2000_waiting : InteractionHandler :=
  { hold_2000_interaction with
    mState := INTERACTION_STATE_WAITING
    mThread := some (Pc.polling 2000) }

/-- The clock reading 500 ms after the one of `hold_2000_interaction`. -/
def t_500 : timespec := ⟨100, 500000000⟩

/-- The invariant behind the bounded hold: the bounds of the constructor, a
hold in `[1400, 5650]` that `mWaitMs` repeats while a hold is in effect, and an
`mWaitMs` and a `poll` timeout in that range while the worker is between its
locked section and `Release`. -/
def hold_invariant (h : InteractionHandler) : Prop :=
  h.mMinDurationMs = 1400 ∧ h.mMaxDurationMs = 5650 ∧
  ((h.mState = INTERACTION_STATE_INTERACTION ∨ h.mState = INTERACTION_STATE_WAITING) →
    h.mWaitMs = h.mDurationMs ∧ 1400 ≤ h.mDurationMs ∧ h.mDurationMs ≤ 5650) ∧
  (h.mThread = some Pc.wait_call → 1400 ≤ h.mWaitMs ∧ h.mWaitMs ≤ 5650) ∧
  (∀ wait_ms, h.mThread = some (Pc.polling wait_ms) → 1400 ≤ wait_ms ∧ wait_ms ≤ 5650)


/-- The handler after a successful `Init`, an `Acquire(INT32_MAX)` (the sum
with 650 wraps below zero) and the two worker steps that bring the thread
into `poll`. -/
def hold_wrapped_waiting : InteractionHandler :=
  { Acquire 2147483647 ⟨100, 0⟩ (Init true (ctor ⟨0, 0⟩)).1 with
    mState := INTERACTION_STATE_WAITING
    mThread := some (Pc.polling 1400) }

/-- The invariant behind the wake-up protocol, for executions in which `poll`
does not fail: no abort is pending in the eventfd while the state is idle or
waiting, nor while the worker is at the top of its loop in an initialized
handler; the state is not waiting while the worker is at the top of its loop;
a `poll` that returned as aborted has left a pending abort for `Release` to
clear; while the state is still waiting, the timeout of the current `poll` is
`mWaitMs`; and no `poll` has returned an error. -/
def wake_invariant (h : InteractionHandler) : Prop :=
  ((h.mState = INTERACTION_STATE_IDLE ∨ h.mState = INTERACTION_STATE_WAITING) →
    h.mEventFd = 0) ∧
  (h.mThread = some Pc.cond_wait → h.mState ≠ INTERACTION_STATE_UNINITIALIZED →
    h.mEventFd = 0) ∧
  (h.mThread = some Pc.cond_wait → h.mState ≠ INTERACTION_STATE_WAITING) ∧
  (∀ wait_ms, h.mThread = some (Pc.release_call wait_ms poll_ret.aborted) → 0 < h.mEventFd) ∧
  (∀ wait_ms, h.mThread = some (Pc.polling wait_ms) →
    h.mState = INTERACTION_STATE_WAITING → wait_ms = h.mWaitMs) ∧
  (∀ wait_ms ret, h.mThread = some (Pc.release_call wait_ms ret) →
    h.mState = INTERACTION_STATE_WAITING → wait_ms = h.mWaitMs) ∧
  (∀ wait_ms, h.mThread ≠ some (Pc.release_call wait_ms poll_ret.error))

/-- The hold of 2000 ms after its `poll` has run out: the worker is about to
call `Release` and the state is still waiting. -/
def hold_2000_timed_out : InteractionHandler :=
  { hold_2000_waiting with mThread := some (Pc.release_call 2000 poll_ret.timeout) }

/-- In the trace `calls` (newest first) every `PerfLock` has a `PerfRel` that
is newer. -/
def locks_released (calls : List Call) : Prop :=
  ∀ newer older, calls = newer ++ Call.PerfLock :: older → Call.PerfRel ∈ newer

/-- In the trace `calls` (newest first) there is a `PerfRel` between any two
`PerfLock`. -/
def locks_alternate (calls : List Call) : Prop :=
  ∀ newer between older,
    calls = newer ++ Call.PerfLock :: (between ++ Call.PerfLock :: older) →
    Call.PerfRel ∈ between

/-- The invariant of an execution without `Init` and `Exit` that started in
state idle with trace `base`; `calls` are the calls made since. -/
def cycle_invariant (base : List Call) (h : InteractionHandler) (calls : List Call) : Prop :=
  h.trace = calls ++ base ∧ locks_alternate calls ∧
  (h.mState = INTERACTION_STATE_IDLE → locks_released calls) ∧
  (h.mState ≠ INTERACTION_STATE_IDLE → Call.PerfLock ∈ calls) ∧
  h.mState ≠ INTERACTION_STATE_UNINITIALIZED

/-- The handler right after a successful `Init`: idle, worker at the top of
`Routine`, empty trace. -/
def idle_after_init : InteractionHandler :=
  (Init true (ctor ⟨0, 0⟩)).1

/-- The number of steps the worker thread still takes from a position in
`Routine` until `Routine` returns, once the state is uninitialized: the call
of `WaitForIdle`, the return of `poll`, `Release`, and the state check at the
top of the loop. -/
def steps_to_return : Option Pc → Nat
  | some Pc.wait_call => 4
  | some (Pc.polling _) => 3
  | some (Pc.release_call _ _) => 2
  | some Pc.cond_wait => 1
  | some Pc.returned => 0
  | none => 0

/-- The number of worker steps in a list of steps. -/
def worker_steps : List Action → Nat
  | [] => 0
  | Action.Routine _ :: rest => worker_steps rest + 1
  | _ :: rest => worker_steps rest

/-- The invariant of an execution after the locked section of `Exit` (trace
`base` at that point): the state stays uninitialized, the calls made since
contain no boost call, the thread exists, and an abort is pending in the
eventfd as long as the worker has not come back from `poll`. -/
def exit_invariant (base : List Call) (h : InteractionHandler) (calls : List Call) : Prop :=
  h.mState = INTERACTION_STATE_UNINITIALIZED ∧ h.trace = calls ++ base ∧
  Call.PerfRel ∉ calls ∧ Call.PerfLock ∉ calls ∧ h.mThread ≠ none ∧
  ((h.mThread = some Pc.wait_call ∨ ∃ wait_ms, h.mThread = some (Pc.polling wait_ms)) →
    0 < h.mEventFd)

/-- The hold of 2000 ms right after the worker has set
`INTERACTION_STATE_WAITING` and released the lock, before it calls
`WaitForIdle`. -/
def hold_2000_unlocked : InteractionHandler :=
  { hold_2000_interaction with
    mState := INTERACTION_STATE_WAITING
    mThread := some Pc.wait_call }

/-- The invariant that bounds the counter of the eventfd in every execution,
`poll` errors included: no pending abort while the state is idle or waiting
or the worker is at the top of its loop in an initialized handler, at most one
pending abort while the handler is initialized, at most two at all. -/
def eventfd_invariant (h : InteractionHandler) : Prop :=
  ((h.mState = INTERACTION_STATE_IDLE ∨ h.mState = INTERACTION_STATE_WAITING) →
    h.mEventFd = 0) ∧
  (h.mThread = some Pc.cond_wait → h.mState ≠ INTERACTION_STATE_UNINITIALIZED →
    h.mEventFd = 0) ∧
  (h.mThread = some Pc.cond_wait → h.mState ≠ INTERACTION_STATE_WAITING) ∧
  (h.mState ≠ INTERACTION_STATE_UNINITIALIZED → h.mEventFd ≤ 1) ∧
  h.mEventFd ≤ 2
/-! ## Arithmetic of the model -/

theorem wrap_int32_of_fits (x : Int) (hlo : -2147483648 ≤ x) (hhi : x ≤ 2147483647) :
    wrap_int32 x = x := by
  unfold wrap_int32
  omega

theorem wrap_int32_range (x : Int) :
    -2147483648 ≤ wrap_int32 x ∧ wrap_int32 x ≤ 2147483647 := by
  unfold wrap_int32
  omega

/-- With the bounds the constructor sets, `finalDuration` is the clamp of the
wrapped sum to `[1400, 5650]`. -/
theorem finalDuration_eq_clamp (h : InteractionHandler) (duration : Int)
    (hmin : h.mMinDurationMs = 1400) (hmax : h.mMaxDurationMs = 5650) :
    finalDuration h duration = max 1400 (min 5650 (wrap_int32 (duration + 650))) := by
  unfold finalDuration
  simp only [hmin, hmax]
  split_ifs <;> omega

theorem finalDuration_range (h : InteractionHandler) (duration : Int)
    (hmin : h.mMinDurationMs = 1400) (hmax : h.mMaxDurationMs = 5650) :
    1400 ≤ finalDuration h duration ∧ finalDuration h duration ≤ 5650 := by
  rw [finalDuration_eq_clamp h duration hmin hmax]
  omega

/-! ## Executions -/

/-- Induction over an execution: a property kept by every step that satisfies
`Q` holds at the end of every execution made of such steps. -/
theorem run_induction (Q : Action → Prop) (P : InteractionHandler → Prop)
    (hstep : ∀ a h h1, Q a → P h → step a h = some h1 → P h1) :
    ∀ (acts : List Action) (h h1 : InteractionHandler),
      (∀ a ∈ acts, Q a) → P h → run acts h = some h1 → P h1 := by
  intro acts
  induction acts with
  | nil =>
    intro h h1 _ hP hr
    simp only [run, Option.some.injEq] at hr
    exact hr ▸ hP
  | cons a rest ih =>
    intro h h1 hQ hP hr
    simp only [run] at hr
    cases hs : step a h with
    | none => simp [hs] at hr
    | some h2 =>
      simp only [hs] at hr
      exact ih h2 h1 (fun b hb => hQ b (List.mem_cons_of_mem a hb))
        (hstep a h h2 (hQ a (List.mem_cons_self a rest)) hP hs) hr

/-- What an accepted `Acquire` leaves behind, by the state it was called in. -/
theorem Acquire_accepted (duration : Int) (cur_timespec : timespec) (h : InteractionHandler)
    (hu : h.mState ≠ INTERACTION_STATE_UNINITIALIZED)
    (hacc : ¬ (h.mState ≠ INTERACTION_STATE_IDLE ∧ finalDuration h duration ≤ h.mDurationMs ∧
      CalcTimespecDiffMs h.mLastTimespec cur_timespec ≤
        h.mDurationMs - finalDuration h duration)) :
    Acquire duration cur_timespec h =
      { h with
        mLastTimespec := cur_timespec
        mDurationMs := finalDuration h duration
        mWaitMs := finalDuration h duration
        mState := INTERACTION_STATE_INTERACTION
        mEventFd :=
          if h.mState = INTERACTION_STATE_WAITING then h.mEventFd + 1 else h.mEventFd
        trace :=
          if h.mState = INTERACTION_STATE_WAITING then
            Call.notify_one :: Call.write_eventfd :: h.trace
          else if h.mState = INTERACTION_STATE_IDLE then
            Call.notify_one :: Call.PerfLock :: h.trace
          else Call.notify_one :: h.trace } := by
  unfold Acquire
  rw [if_neg hu]
  simp only []
  rw [if_neg hacc]
  by_cases hw : h.mState = INTERACTION_STATE_WAITING
  · simp [hw, AbortWaitLocked]
  · by_cases hi : h.mState = INTERACTION_STATE_IDLE
    · simp [hi, PerfLock]
    · simp [hw, hi]

/-- A discarded `Acquire` returns the handler as it found it. -/
theorem Acquire_discarded (duration : Int) (cur_timespec : timespec) (h : InteractionHandler)
    (hd : h.mState = INTERACTION_STATE_UNINITIALIZED ∨
      (h.mState ≠ INTERACTION_STATE_IDLE ∧ finalDuration h duration ≤ h.mDurationMs ∧
        CalcTimespecDiffMs h.mLastTimespec cur_timespec ≤
          h.mDurationMs - finalDuration h duration)) :
    Acquire duration cur_timespec h = h := by
  unfold Acquire
  rcases hd with hu | hd
  · rw [if_pos hu]
  · by_cases hu : h.mState = INTERACTION_STATE_UNINITIALIZED
    · rw [if_pos hu]
    · rw [if_neg hu]
      simp only []
      rw [if_pos hd]

/-- The function `WaitForIdle` hands the handler back unchanged, and only
when its `poll` can return the way asked for. -/
theorem WaitForIdle_some (wait_ms : Int) (ret : poll_ret) (h h1 : InteractionHandler)
    (hw : WaitForIdle wait_ms ret h = some h1) :
    h1 = h ∧ (ret = poll_ret.aborted → 0 < h.mEventFd) ∧
      (ret = poll_ret.timeout → h.mEventFd = 0 ∧ 0 ≤ wait_ms) := by
  cases ret <;> simp only [WaitForIdle] at hw
  · split_ifs at hw with hc
    simp only [Option.some.injEq] at hw
    exact ⟨hw.symm, fun _ => hc, fun hne => (by cases hne)⟩
  · split_ifs at hw with hc
    simp only [Option.some.injEq] at hw
    exact ⟨hw.symm, fun hne => (by cases hne), fun _ => hc⟩
  · simp only [Option.some.injEq] at hw
    exact ⟨hw.symm, fun hne => (by cases hne), fun hne => (by cases hne)⟩

/-- The five kinds of step the worker thread takes. -/
theorem Routine_cases (ret : poll_ret) (h h1 : InteractionHandler)
    (hs : Routine ret h = some h1) :
    (h.mThread = some Pc.cond_wait ∧ h.mState = INTERACTION_STATE_UNINITIALIZED ∧
      h1 = { h with mThread := some Pc.returned }) ∨
    (h.mThread = some Pc.cond_wait ∧ h.mState ≠ INTERACTION_STATE_IDLE ∧
      h.mState ≠ INTERACTION_STATE_UNINITIALIZED ∧
      h1 = { h with mState := INTERACTION_STATE_WAITING, mThread := some Pc.wait_call }) ∨
    (h.mThread = some Pc.wait_call ∧
      h1 = { h with mThread := some (Pc.polling h.mWaitMs) }) ∨
    (∃ wait_ms, h.mThread = some (Pc.polling wait_ms) ∧
      (ret = poll_ret.aborted → 0 < h.mEventFd) ∧
      (ret = poll_ret.timeout → h.mEventFd = 0 ∧ 0 ≤ wait_ms) ∧
      h1 = { h with mThread := some (Pc.release_call wait_ms ret) }) ∨
    (∃ wait_ms r, h.mThread = some (Pc.release_call wait_ms r) ∧
      h1 = { Release h with mThread := some Pc.cond_wait }) := by
  simp only [Routine] at hs
  split at hs
  · simp at hs
  · rename_i hpc
    split_ifs at hs with hi hu
    · simp only [Option.some.injEq] at hs
      exact Or.inl ⟨hpc, hu, hs.symm⟩
    · simp only [Option.some.injEq] at hs
      exact Or.inr (Or.inl ⟨hpc, hi, hu, hs.symm⟩)
  · rename_i hpc
    simp only [Option.some.injEq] at hs
    exact Or.inr (Or.inr (Or.inl ⟨hpc, hs.symm⟩))
  · rename_i wait_ms hpc
    split at hs
    · simp at hs
    · rename_i h2 hw
      simp only [Option.some.injEq] at hs
      obtain ⟨h2eq, ha, ht⟩ := WaitForIdle_some wait_ms ret h h2 hw
      subst h2eq
      exact Or.inr (Or.inr (Or.inr (Or.inl ⟨wait_ms, hpc, ha, ht, hs.symm⟩)))
  · rename_i wait_ms r hpc
    simp only [Option.some.injEq] at hs
    exact Or.inr (Or.inr (Or.inr (Or.inr ⟨wait_ms, r, hpc, hs.symm⟩)))
  · simp at hs

/-- The two outcomes of `Release`. -/
theorem Release_cases (h : InteractionHandler) :
    (h.mState = INTERACTION_STATE_WAITING ∧
      Release h =
        { h with mState := INTERACTION_STATE_IDLE, trace := Call.PerfRel :: h.trace }) ∨
    (h.mState ≠ INTERACTION_STATE_WAITING ∧
      Release h = { h with mEventFd := 0, trace := Call.read_eventfd :: h.trace }) := by
  unfold Release
  by_cases hw : h.mState = INTERACTION_STATE_WAITING
  · exact Or.inl ⟨hw, by simp [hw, PerfRel]⟩
  · exact Or.inr ⟨hw, by simp [hw]⟩

/-- The outcomes of `Acquire`: discarded (nothing changes) or accepted. -/
theorem Acquire_cases (duration : Int) (cur_timespec : timespec) (h : InteractionHandler) :
    Acquire duration cur_timespec h = h ∨
    (h.mState ≠ INTERACTION_STATE_UNINITIALIZED ∧
      Acquire duration cur_timespec h =
        { h with
          mLastTimespec := cur_timespec
          mDurationMs := finalDuration h duration
          mWaitMs := finalDuration h duration
          mState := INTERACTION_STATE_INTERACTION
          mEventFd :=
            if h.mState = INTERACTION_STATE_WAITING then h.mEventFd + 1 else h.mEventFd
          trace :=
            if h.mState = INTERACTION_STATE_WAITING then
              Call.notify_one :: Call.write_eventfd :: h.trace
            else if h.mState = INTERACTION_STATE_IDLE then
              Call.notify_one :: Call.PerfLock :: h.trace
            else Call.notify_one :: h.trace }) := by
  by_cases hu : h.mState = INTERACTION_STATE_UNINITIALIZED
  · exact Or.inl (Acquire_discarded duration cur_timespec h (Or.inl hu))
  · by_cases hd : h.mState ≠ INTERACTION_STATE_IDLE ∧
        finalDuration h duration ≤ h.mDurationMs ∧
        CalcTimespecDiffMs h.mLastTimespec cur_timespec ≤
          h.mDurationMs - finalDuration h duration
    · exact Or.inl (Acquire_discarded duration cur_timespec h (Or.inr hd))
    · exact Or.inr ⟨hu, Acquire_accepted duration cur_timespec h hu hd⟩

/-- The outcomes of a step `Init`: nothing changes, or a fresh eventfd and a
fresh worker thread in state idle. -/
theorem Init_cases (eventfd_ok : Bool) (h : InteractionHandler) :
    (Init eventfd_ok h).1 = h ∨
    (h.mState = INTERACTION_STATE_UNINITIALIZED ∧
      (Init eventfd_ok h).1 =
        { h with
          mEventFd := 0
          mState := INTERACTION_STATE_IDLE
          mThread := some Pc.cond_wait }) := by
  unfold Init
  by_cases hu : h.mState = INTERACTION_STATE_UNINITIALIZED
  · by_cases hok : eventfd_ok = false
    · exact Or.inl (by simp [hu, hok])
    · exact Or.inr ⟨hu, by simp [hu, hok]⟩
  · exact Or.inl (by simp [hu])

/-- The outcomes of the locked section of `Exit`. -/
theorem Exit_cases (h : InteractionHandler) :
    (h.mState = INTERACTION_STATE_UNINITIALIZED ∧ Exit h = h) ∨
    (h.mState ≠ INTERACTION_STATE_UNINITIALIZED ∧
      Exit h =
        { h with
          mState := INTERACTION_STATE_UNINITIALIZED
          mEventFd := h.mEventFd + 1
          trace := Call.notify_all :: Call.write_eventfd :: h.trace }) := by
  unfold Exit
  by_cases hu : h.mState = INTERACTION_STATE_UNINITIALIZED
  · exact Or.inl ⟨hu, by simp [hu]⟩
  · exact Or.inr ⟨hu, by simp [hu, AbortWaitLocked]⟩

/-- The five kinds of step of the system, each with what it does. -/
theorem step_cases (a : Action) (h h1 : InteractionHandler) (hs : step a h = some h1) :
    (∃ ok, a = Action.Init ok ∧
      ¬ (h.mState = INTERACTION_STATE_UNINITIALIZED ∧ h.mThread ≠ none) ∧
      h1 = (Init ok h).1) ∨
    (∃ d t, a = Action.Acquire d t ∧ h1 = Acquire d t h) ∨
    (a = Action.Exit ∧ h1 = Exit h) ∨
    (a = Action.Exit_join ∧ h.mThread = some Pc.returned ∧
      h1 = { h with mThread := none, trace := Call.close_eventfd :: h.trace }) ∨
    (∃ ret, a = Action.Routine ret ∧ Routine ret h = some h1) := by
  cases a with
  | Init ok =>
    simp only [step] at hs
    split_ifs at hs with hc
    simp only [Option.some.injEq] at hs
    exact Or.inl ⟨ok, rfl, hc, hs.symm⟩
  | Acquire d t =>
    simp only [step, Option.some.injEq] at hs
    exact Or.inr (Or.inl ⟨d, t, rfl, hs.symm⟩)
  | Exit =>
    simp only [step, Option.some.injEq] at hs
    exact Or.inr (Or.inr (Or.inl ⟨rfl, hs.symm⟩))
  | Exit_join =>
    simp only [step, Exit_join] at hs
    split_ifs at hs with hc
    simp only [Option.some.injEq] at hs
    exact Or.inr (Or.inr (Or.inr (Or.inl ⟨rfl, hc, hs.symm⟩)))
  | Routine ret =>
    simp only [step] at hs
    exact Or.inr (Or.inr (Or.inr (Or.inr ⟨ret, rfl, hs⟩)))

/-- No step changes the two bounds that the constructor sets. -/
theorem step_bounds (a : Action) (h h1 : InteractionHandler) (hs : step a h = some h1) :
    h1.mMinDurationMs = h.mMinDurationMs ∧ h1.mMaxDurationMs = h.mMaxDurationMs := by
  rcases step_cases a h h1 hs with ⟨ok, -, -, rfl⟩ | ⟨d, t, -, rfl⟩ | ⟨-, rfl⟩ | ⟨-, -, rfl⟩ |
    ⟨ret, -, hr⟩
  · rcases Init_cases ok h with he | ⟨-, he⟩ <;> rw [he] <;> exact ⟨rfl, rfl⟩
  · rcases Acquire_cases d t h with he | ⟨-, he⟩ <;> rw [he] <;> exact ⟨rfl, rfl⟩
  · rcases Exit_cases h with ⟨-, he⟩ | ⟨-, he⟩ <;> rw [he] <;> exact ⟨rfl, rfl⟩
  · exact ⟨rfl, rfl⟩
  · rcases Routine_cases ret h h1 hr with ⟨-, -, rfl⟩ | ⟨-, -, -, rfl⟩ | ⟨-, rfl⟩ |
      ⟨w, -, -, -, rfl⟩ | ⟨w, r, -, rfl⟩
    · exact ⟨rfl, rfl⟩
    · exact ⟨rfl, rfl⟩
    · exact ⟨rfl, rfl⟩
    · exact ⟨rfl, rfl⟩
    · rcases Release_cases h with ⟨-, he⟩ | ⟨-, he⟩ <;> rw [he] <;> exact ⟨rfl, rfl⟩

/-- In every state of every execution from the constructed handler the bounds
are the ones the constructor set. -/
theorem run_bounds (acts : List Action) (garbage : timespec) (h : InteractionHandler)
    (hr : run acts (ctor garbage) = some h) :
    h.mMinDurationMs = 1400 ∧ h.mMaxDurationMs = 5650 := by
  refine run_induction (fun _ => True)
    (fun x => x.mMinDurationMs = 1400 ∧ x.mMaxDurationMs = 5650) ?_ acts (ctor garbage) h
    (fun _ _ => trivial) ⟨rfl, rfl⟩ hr
  intro a x x1 _ hP hs
  have hb := step_bounds a x x1 hs
  exact ⟨hb.1.trans hP.1, hb.2.trans hP.2⟩

/-! ## A single call of `Acquire` -/

/-- C1: in every state `h` that an execution from the constructed handler
reaches, the effective hold duration `finalDuration` that `Acquire(duration)`
computes is `max(1400, min(5650, duration + 650))`, the sum being the `int32`
sum of the code (wrapped); where the sum stays in range it is the plain sum;
an `Acquire` that is accepted stores exactly this value in `mDurationMs` and
`mWaitMs`; and the requests 0, 10000 and 1000 give 1400, 5650 and 1650. -/
theorem Acquire_effective_duration_clamped (acts : List Action) (garbage : timespec)
    (h : InteractionHandler) (hr : run acts (ctor garbage) = some h)
    (duration : Int) (cur_timespec : timespec) :
    finalDuration h duration = max 1400 (min 5650 (wrap_int32 (duration + 650))) ∧
    (-2147483648 ≤ duration → duration + 650 ≤ 2147483647 →
      finalDuration h duration = max 1400 (min 5650 (duration + 650))) ∧
    (Acquire duration cur_timespec h ≠ h →
      (Acquire duration cur_timespec h).mDurationMs =
          max 1400 (min 5650 (wrap_int32 (duration + 650))) ∧
        (Acquire duration cur_timespec h).mWaitMs =
          max 1400 (min 5650 (wrap_int32 (duration + 650)))) ∧
    finalDuration h 0 = 1400 ∧ finalDuration h 10000 = 5650 ∧ finalDuration h 1000 = 1650 := by
  obtain ⟨hmin, hmax⟩ := run_bounds acts garbage h hr
  have hc := finalDuration_eq_clamp h duration hmin hmax
  refine ⟨hc, ?_, ?_, ?_, ?_, ?_⟩
  · intro hlo hhi
    rw [hc, wrap_int32_of_fits (duration + 650) (by omega) hhi]
  · intro hne
    rcases Acquire_cases duration cur_timespec h with he | ⟨-, he⟩
    · exact absurd he hne
    · rw [he]
      exact ⟨hc, hc⟩
  · rw [finalDuration_eq_clamp h 0 hmin hmax]
    decide
  · rw [finalDuration_eq_clamp h 10000 hmin hmax]
    decide
  · rw [finalDuration_eq_clamp h 1000 hmin hmax]
    decide

/-- C1, at a concrete state: after `Init` and one accepted `Acquire`, a request
of 1000 ms at a later instant. -/
theorem Acquire_effective_duration_clamped_witness :
    run [Action.Init true, Action.Acquire 1350 ⟨100, 0⟩] (ctor ⟨0, 0⟩)
        = some hold_2000_interaction ∧
      finalDuration hold_2000_interaction 1000 = 1650 ∧
      (Acquire 1000 t_500 hold_2000_interaction).mDurationMs = 1650 :=
  ⟨by decide, by decide,
    by
      have hw := Acquire_effective_duration_clamped
        [Action.Init true, Action.Acquire 1350 ⟨100, 0⟩] ⟨0, 0⟩ hold_2000_interaction
        (by decide) 1000 t_500
      have hd := (hw.2.2.1 (by decide)).1
      rw [hd]
      decide⟩

/-- C2: debounce absorption.  An `Acquire(duration)` called in a state that is
neither uninitialized nor idle, whose effective duration `e` is at most
`mDurationMs` and for which the time elapsed since `mLastTimespec` is at most
`mDurationMs - e`, returns the handler exactly as it found it: `mState`,
`mDurationMs`, `mWaitMs` and `mLastTimespec` are unchanged, the trace has no
new call (no `PerfLock`, no `PerfRel`, no write to the eventfd, no
notification) and the counter of the eventfd is the same. -/
theorem Acquire_debounce_absorbs (duration : Int) (cur_timespec : timespec)
    (h : InteractionHandler)
    (_hu : h.mState ≠ INTERACTION_STATE_UNINITIALIZED)
    (hi : h.mState ≠ INTERACTION_STATE_IDLE)
    (he : finalDuration h duration ≤ h.mDurationMs)
    (hel : CalcTimespecDiffMs h.mLastTimespec cur_timespec ≤
      h.mDurationMs - finalDuration h duration) :
    Acquire duration cur_timespec h = h ∧
    (Acquire duration cur_timespec h).mState = h.mState ∧
    (Acquire duration cur_timespec h).mDurationMs = h.mDurationMs ∧
    (Acquire duration cur_timespec h).mWaitMs = h.mWaitMs ∧
    (Acquire duration cur_timespec h).mLastTimespec = h.mLastTimespec ∧
    (Acquire duration cur_timespec h).mEventFd = h.mEventFd ∧
    (Acquire duration cur_timespec h).trace = h.trace := by
  have hd := Acquire_discarded duration cur_timespec h (Or.inr ⟨hi, he, hel⟩)
  rw [hd]
  exact ⟨rfl, rfl, rfl, rfl, rfl, rfl, rfl⟩

/-- C2, at the scenario of the specification: a hold of 2000 ms accepted at
`t = 0`, the worker waiting, and an `Acquire` 500 ms later whose effective
duration is 1450 ms (request 800). -/
theorem Acquire_debounce_absorbs_witness :
    run [Action.Init true, Action.Acquire 1350 ⟨100, 0⟩, Action.Routine poll_ret.timeout,
        Action.Routine poll_ret.timeout] (ctor ⟨0, 0⟩) = some hold_2000_waiting ∧
      finalDuration hold_2000_waiting 800 = 1450 ∧
      CalcTimespecDiffMs hold_2000_waiting.mLastTimespec t_500 = 500 ∧
      Acquire 800 t_500 hold_2000_waiting = hold_2000_waiting :=
  ⟨by decide, by decide, by decide,
    (Acquire_debounce_absorbs 800 t_500 hold_2000_waiting (by decide) (by decide)
      (by decide) (by decide)).1⟩

/-- A request that exceeds the hold in effect, or outlasts what is left of it,
does not meet the condition of the early return of `Acquire`. -/
theorem Acquire_not_covered (duration : Int) (cur_timespec : timespec)
    (h : InteractionHandler)
    (hacc : h.mDurationMs < finalDuration h duration ∨
      (finalDuration h duration ≤ h.mDurationMs ∧
        h.mDurationMs - finalDuration h duration <
          CalcTimespecDiffMs h.mLastTimespec cur_timespec)) :
    ¬ (h.mState ≠ INTERACTION_STATE_IDLE ∧ finalDuration h duration ≤ h.mDurationMs ∧
      CalcTimespecDiffMs h.mLastTimespec cur_timespec ≤
        h.mDurationMs - finalDuration h duration) := by
  rintro ⟨-, h1, h2⟩
  rcases hacc with h3 | ⟨-, h3⟩ <;> omega

/-- C3: extension overrides debounce.  An `Acquire(duration)` called in state
`INTERACTION_STATE_WAITING` whose effective duration `e` exceeds `mDurationMs`,
or does not exceed it while the elapsed time exceeds `mDurationMs - e`, is
accepted: it makes exactly one write to the eventfd (counter plus 1) and one
`notify_one`, sets `mLastTimespec` to the clock reading, `mDurationMs` and
`mWaitMs` to `e` and `mState` to `INTERACTION_STATE_INTERACTION`, changes
nothing else, and calls neither `PerfLock` nor `PerfRel`. -/
theorem Acquire_extension_overrides_debounce (duration : Int) (cur_timespec : timespec)
    (h : InteractionHandler)
    (hw : h.mState = INTERACTION_STATE_WAITING)
    (hacc : h.mDurationMs < finalDuration h duration ∨
      (finalDuration h duration ≤ h.mDurationMs ∧
        h.mDurationMs - finalDuration h duration <
          CalcTimespecDiffMs h.mLastTimespec cur_timespec)) :
    Acquire duration cur_timespec h =
      { h with
        mLastTimespec := cur_timespec
        mDurationMs := finalDuration h duration
        mWaitMs := finalDuration h duration
        mState := INTERACTION_STATE_INTERACTION
        mEventFd := h.mEventFd + 1
        trace := Call.notify_one :: Call.write_eventfd :: h.trace } := by
  have hu : h.mState ≠ INTERACTION_STATE_UNINITIALIZED := by
    rw [hw]
    decide
  rw [Acquire_accepted duration cur_timespec h hu
    (Acquire_not_covered duration cur_timespec h hacc)]
  simp [hw]

/-- C3, at the scenario of the specification: a hold of 2000 ms accepted at
`t = 0`, the worker waiting, and an `Acquire` 500 ms later with effective
duration 1800 ms (request 1150) leaves `mWaitMs = mDurationMs = 1800`,
`mLastTimespec` at the new instant, one more abort in the eventfd, and as new
calls only the write and the notification. -/
theorem Acquire_extension_overrides_debounce_witness :
    finalDuration hold_2000_waiting 1150 = 1800 ∧
      (Acquire 1150 t_500 hold_2000_waiting).mWaitMs = 1800 ∧
      (Acquire 1150 t_500 hold_2000_waiting).mDurationMs = 1800 ∧
      (Acquire 1150 t_500 hold_2000_waiting).mLastTimespec = t_500 ∧
      (Acquire 1150 t_500 hold_2000_waiting).mState = INTERACTION_STATE_INTERACTION ∧
      (Acquire 1150 t_500 hold_2000_waiting).mEventFd = 1 ∧
      (Acquire 1150 t_500 hold_2000_waiting).trace =
        Call.notify_one :: Call.write_eventfd :: hold_2000_waiting.trace := by
  have hw := Acquire_extension_overrides_debounce 1150 t_500 hold_2000_waiting (by decide)
    (Or.inr (by decide))
  rw [hw]
  decide

/-- C5: `Acquire(duration)` called while `mState` is
`INTERACTION_STATE_UNINITIALIZED` returns the handler exactly as it found it:
`mState`, `mWaitMs`, `mDurationMs` and `mLastTimespec` are unchanged, the trace
has no new call (no `PerfLock`, no `PerfRel`, no write to the eventfd) and the
counter of the eventfd is the same.  The state is uninitialized in the handler
as constructed, after an `Init` whose `eventfd` failed, and after the locked
section of `Exit`, whatever the state `Exit` was called in. -/
theorem Acquire_uninitialized_noop (duration : Int) (cur_timespec : timespec)
    (h : InteractionHandler)
    (hu : h.mState = INTERACTION_STATE_UNINITIALIZED) :
    Acquire duration cur_timespec h = h ∧
    (Acquire duration cur_timespec h).mState = h.mState ∧
    (Acquire duration cur_timespec h).mWaitMs = h.mWaitMs ∧
    (Acquire duration cur_timespec h).mDurationMs = h.mDurationMs ∧
    (Acquire duration cur_timespec h).mLastTimespec = h.mLastTimespec ∧
    (Acquire duration cur_timespec h).mEventFd = h.mEventFd ∧
    (Acquire duration cur_timespec h).trace = h.trace ∧
    (∀ garbage, Acquire duration cur_timespec (ctor garbage) = ctor garbage) ∧
    (∀ garbage, Acquire duration cur_timespec (Init false (ctor garbage)).1 =
      (Init false (ctor garbage)).1) ∧
    (∀ g, (Exit g).mState = INTERACTION_STATE_UNINITIALIZED ∧
      Acquire duration cur_timespec (Exit g) = Exit g) := by
  have hd := Acquire_discarded duration cur_timespec h (Or.inl hu)
  rw [hd]
  refine ⟨rfl, rfl, rfl, rfl, rfl, rfl, rfl, ?_, ?_, ?_⟩
  · intro garbage
    exact Acquire_discarded duration cur_timespec (ctor garbage) (Or.inl rfl)
  · intro garbage
    exact Acquire_discarded duration cur_timespec _ (Or.inl rfl)
  · intro g
    have hx : (Exit g).mState = INTERACTION_STATE_UNINITIALIZED := by
      rcases Exit_cases g with ⟨hg, he⟩ | ⟨-, he⟩
      · rw [he]
        exact hg
      · rw [he]
    exact ⟨hx, Acquire_discarded duration cur_timespec (Exit g) (Or.inl hx)⟩

/-- C5, at a concrete state: the hold of 2000 ms is being waited for, `Exit`
runs its locked section, and an `Acquire(1000)` that follows changes
nothing. -/
theorem Acquire_uninitialized_noop_witness :
    (Exit hold_2000_waiting).mState = INTERACTION_STATE_UNINITIALIZED ∧
      Acquire 1000 t_500 (Exit hold_2000_waiting) = Exit hold_2000_waiting :=
  ⟨by decide,
    (Acquire_uninitialized_noop 1000 t_500 (Exit hold_2000_waiting) (by decide)).1⟩

theorem hold_invariant_step (a : Action) (h h1 : InteractionHandler)
    (hinv : hold_invariant h) (hs : step a h = some h1) : hold_invariant h1 := by
  obtain ⟨hmin, hmax, hhold, hwc, hpoll⟩ := hinv
  rcases step_cases a h h1 hs with ⟨ok, -, hg, rfl⟩ | ⟨d, t, -, rfl⟩ | ⟨-, rfl⟩ | ⟨-, -, rfl⟩ |
    ⟨ret, -, hr⟩
  · rcases Init_cases ok h with he | ⟨hu, he⟩ <;> rw [he]
    · exact ⟨hmin, hmax, hhold, hwc, hpoll⟩
    · refine ⟨hmin, hmax, ?_, ?_, ?_⟩
      · rintro (hc | hc) <;> cases hc
      · intro hc
        cases hc
      · intro w hc
        cases hc
  · rcases Acquire_cases d t h with he | ⟨-, he⟩ <;> rw [he]
    · exact ⟨hmin, hmax, hhold, hwc, hpoll⟩
    · have hrange := finalDuration_range h d hmin hmax
      exact ⟨hmin, hmax, fun _ => ⟨rfl, hrange⟩, fun _ => hrange, hpoll⟩
  · rcases Exit_cases h with ⟨-, he⟩ | ⟨-, he⟩ <;> rw [he]
    · exact ⟨hmin, hmax, hhold, hwc, hpoll⟩
    · refine ⟨hmin, hmax, ?_, hwc, hpoll⟩
      rintro (hc | hc) <;> cases hc
  · refine ⟨hmin, hmax, hhold, ?_, ?_⟩
    · intro hc
      cases hc
    · intro w hc
      cases hc
  · rcases Routine_cases ret h h1 hr with ⟨-, -, rfl⟩ | ⟨-, hi, hu, rfl⟩ | ⟨hpc, rfl⟩ |
      ⟨w, -, -, -, rfl⟩ | ⟨w, r, -, rfl⟩
    · refine ⟨hmin, hmax, hhold, ?_, ?_⟩
      · intro hc
        cases hc
      · intro w hc
        cases hc
    · have hst : h.mState = INTERACTION_STATE_INTERACTION ∨
          h.mState = INTERACTION_STATE_WAITING := by
        cases hm : h.mState <;> simp_all
      have hh := hhold hst
      refine ⟨hmin, hmax, fun _ => hh, fun _ => ?_, ?_⟩
      · show 1400 ≤ h.mWaitMs ∧ h.mWaitMs ≤ 5650
        rw [hh.1]
        exact hh.2
      · intro w hc
        cases hc
    · refine ⟨hmin, hmax, hhold, ?_, ?_⟩
      · intro hc
        cases hc
      · intro w hc
        simp only [Option.some.injEq, Pc.polling.injEq] at hc
        subst hc
        exact hwc hpc
    · refine ⟨hmin, hmax, hhold, ?_, ?_⟩
      · intro hc
        cases hc
      · intro w1 hc
        cases hc
    · rcases Release_cases h with ⟨-, he⟩ | ⟨-, he⟩ <;> rw [he]
      · refine ⟨hmin, hmax, ?_, ?_, ?_⟩
        · rintro (hc | hc) <;> cases hc
        · intro hc
          cases hc
        · intro w1 hc
          cases hc
      · refine ⟨hmin, hmax, hhold, ?_, ?_⟩
        · intro hc
          cases hc
        · intro w1 hc
          cases hc

theorem hold_invariant_run (acts : List Action) (garbage : timespec) (h : InteractionHandler)
    (hr : run acts (ctor garbage) = some h) : hold_invariant h := by
  refine run_induction (fun _ => True) hold_invariant ?_ acts (ctor garbage) h
    (fun _ _ => trivial) ?_ hr
  · intro a x x1 _ hP hs
    exact hold_invariant_step a x x1 hP hs
  · refine ⟨rfl, rfl, ?_, ?_, ?_⟩
    · rintro (hc | hc) <;> cases hc
    · intro hc
      cases hc
    · intro w hc
      cases hc

theorem eventfd_invariant_step (a : Action) (h h1 : InteractionHandler)
    (hinv : eventfd_invariant h) (hs : step a h = some h1) : eventfd_invariant h1 := by
  obtain ⟨i1, i2, i3, i4, i5⟩ := hinv
  rcases step_cases a h h1 hs with ⟨ok, -, hg, rfl⟩ | ⟨d, t, -, rfl⟩ | ⟨-, rfl⟩ | ⟨-, hret, rfl⟩ |
    ⟨ret, -, hr⟩
  · rcases Init_cases ok h with he | ⟨hu, he⟩ <;> rw [he]
    · exact ⟨i1, i2, i3, i4, i5⟩
    · unfold eventfd_invariant
      simp
  · rcases Acquire_cases d t h with he | ⟨hu, he⟩ <;> rw [he]
    · exact ⟨i1, i2, i3, i4, i5⟩
    · unfold eventfd_invariant
      simp only []
      have hone := i4 hu
      refine ⟨?_, ?_, ?_, ?_, ?_⟩
      · rintro (hc | hc) <;> cases hc
      · intro hpc _
        rw [if_neg (i3 hpc)]
        exact i2 hpc hu
      · intro _ hc
        cases hc
      · intro _
        by_cases hw : h.mState = INTERACTION_STATE_WAITING
        · rw [if_pos hw, i1 (Or.inr hw)]
        · rw [if_neg hw]
          exact hone
      · split_ifs <;> omega
  · rcases Exit_cases h with ⟨-, he⟩ | ⟨hu, he⟩ <;> rw [he]
    · exact ⟨i1, i2, i3, i4, i5⟩
    · unfold eventfd_invariant
      simp only []
      have hone := i4 hu
      refine ⟨?_, ?_, ?_, ?_, ?_⟩
      · rintro (hc | hc) <;> cases hc
      · intro _ hc
        exact absurd rfl hc
      · intro _ hc
        cases hc
      · intro hc
        exact absurd rfl hc
      · omega
  · unfold eventfd_invariant
    simp only []
    refine ⟨i1, ?_, ?_, i4, i5⟩
    · intro hc
      cases hc
    · intro hc
      cases hc
  · rcases Routine_cases ret h h1 hr with ⟨hpc, hu, rfl⟩ | ⟨hpc, hi, hu, rfl⟩ | ⟨hpc, rfl⟩ |
      ⟨w, hpc, -, -, rfl⟩ | ⟨w, r, hpc, rfl⟩
    · unfold eventfd_invariant
      simp only []
      refine ⟨i1, ?_, ?_, i4, i5⟩
      · intro hc
        cases hc
      · intro hc
        cases hc
    · unfold eventfd_invariant
      simp only []
      have h0 := i2 hpc hu
      refine ⟨fun _ => h0, ?_, ?_, fun _ => by omega, i5⟩
      · intro hc
        cases hc
      · intro hc
        cases hc
    · unfold eventfd_invariant
      simp only []
      refine ⟨i1, ?_, ?_, i4, i5⟩
      · intro hc
        cases hc
      · intro hc
        cases hc
    · unfold eventfd_invariant
      simp only []
      refine ⟨i1, ?_, ?_, i4, i5⟩
      · intro hc
        cases hc
      · intro hc
        cases hc
    · rcases Release_cases h with ⟨hw, he⟩ | ⟨hw, he⟩ <;> rw [he]
      · unfold eventfd_invariant
        simp only []
        have h0 := i1 (Or.inr hw)
        refine ⟨fun _ => h0, fun _ _ => h0, ?_, fun _ => by omega, i5⟩
        intro _ hc
        cases hc
      · unfold eventfd_invariant
        simp only []
        exact ⟨fun _ => trivial, fun _ _ => trivial, fun _ => hw, fun _ => Nat.zero_le 1,
          Nat.zero_le 2⟩

/-- The counter of the eventfd never exceeds 2 (one abort of an `Acquire`, one
of `Exit`), far from the `2^64 - 2` at which a `write` would fail: the model's
unbounded counter is the counter of the kernel. -/
theorem eventfd_counter_bounded (acts : List Action) (garbage : timespec)
    (h : InteractionHandler) (hr : run acts (ctor garbage) = some h) : h.mEventFd ≤ 2 := by
  have hinv : eventfd_invariant h := by
    refine run_induction (fun _ => True) eventfd_invariant ?_ acts (ctor garbage) h
      (fun _ _ => trivial) ?_ hr
    · intro a x x1 _ hP hs
      exact eventfd_invariant_step a x x1 hP hs
    · unfold eventfd_invariant ctor
      simp
  exact hinv.2.2.2.2

/-- Where `Acquire` evaluates the `int` difference `mDurationMs - finalDuration`
(state neither uninitialized nor idle, `finalDuration ≤ mDurationMs`), both
operands lie in `[1400, 5650]`: the subtraction of the model is the one of the
machine. -/
theorem Acquire_difference_fits (acts : List Action) (garbage : timespec)
    (h : InteractionHandler) (hr : run acts (ctor garbage) = some h) (duration : Int)
    (hu : h.mState ≠ INTERACTION_STATE_UNINITIALIZED)
    (hi : h.mState ≠ INTERACTION_STATE_IDLE)
    (hle : finalDuration h duration ≤ h.mDurationMs) :
    0 ≤ h.mDurationMs - finalDuration h duration ∧
      h.mDurationMs - finalDuration h duration ≤ 4250 := by
  obtain ⟨hmin, hmax, hhold, -, -⟩ := hold_invariant_run acts garbage h hr
  have hst : h.mState = INTERACTION_STATE_INTERACTION ∨
      h.mState = INTERACTION_STATE_WAITING := by
    cases hm : h.mState <;> simp_all
  have hh := hhold hst
  have hf := finalDuration_range h duration hmin hmax
  omega

/-- C10: bounded hold.  In every state that an execution from the constructed
handler reaches through `Init`, `Acquire` with any duration (the sum with 650
wrapped to `int32`), `Exit` and worker steps, while `mState` is
`INTERACTION_STATE_INTERACTION` or `INTERACTION_STATE_WAITING` it holds that
`mWaitMs = mDurationMs` and `1400 ≤ mDurationMs ≤ 5650`; the worker step that
calls `WaitForIdle(mWaitMs)` passes a timeout in `[1400, 5650]`, and so is the
timeout of every `poll` in progress. -/
theorem hold_is_bounded (acts : List Action) (garbage : timespec) (h : InteractionHandler)
    (hr : run acts (ctor garbage) = some h) :
    ((h.mState = INTERACTION_STATE_INTERACTION ∨ h.mState = INTERACTION_STATE_WAITING) →
      h.mWaitMs = h.mDurationMs ∧ 1400 ≤ h.mDurationMs ∧ h.mDurationMs ≤ 5650) ∧
    (∀ ret h1, h.mThread = some Pc.wait_call → Routine ret h = some h1 →
      h1.mThread = some (Pc.polling h.mWaitMs) ∧ 1400 ≤ h.mWaitMs ∧ h.mWaitMs ≤ 5650) ∧
    (∀ wait_ms, h.mThread = some (Pc.polling wait_ms) → 1400 ≤ wait_ms ∧ wait_ms ≤ 5650) := by
  obtain ⟨-, -, hhold, hwc, hpoll⟩ := hold_invariant_run acts garbage h hr
  refine ⟨hhold, ?_, hpoll⟩
  intro ret h1 hpc hstep
  refine ⟨?_, hwc hpc⟩
  simp only [Routine, hpc, Option.some.injEq] at hstep
  rw [← hstep]

/-- C10, at a concrete execution: `Init`, `Acquire(INT32_MAX)`, and the two
worker steps into `poll`; the hold and the timeout are 1400 ms. -/
theorem hold_is_bounded_witness :
    run [Action.Init true, Action.Acquire 2147483647 ⟨100, 0⟩,
        Action.Routine poll_ret.timeout, Action.Routine poll_ret.timeout] (ctor ⟨0, 0⟩)
        = some hold_wrapped_waiting ∧
      hold_wrapped_waiting.mState = INTERACTION_STATE_WAITING ∧
      hold_wrapped_waiting.mWaitMs = 1400 ∧
      (hold_wrapped_waiting.mWaitMs = hold_wrapped_waiting.mDurationMs ∧
        1400 ≤ hold_wrapped_waiting.mDurationMs ∧ hold_wrapped_waiting.mDurationMs ≤ 5650) :=
  ⟨by decide, by decide, by decide,
    (hold_is_bounded
      [Action.Init true, Action.Acquire 2147483647 ⟨100, 0⟩,
        Action.Routine poll_ret.timeout, Action.Routine poll_ret.timeout]
      ⟨0, 0⟩ hold_wrapped_waiting (by decide)).1 (Or.inr (by decide))⟩

theorem wake_invariant_step (a : Action) (h h1 : InteractionHandler)
    (ha : a ≠ Action.Routine poll_ret.error)
    (hinv : wake_invariant h) (hs : step a h = some h1) : wake_invariant h1 := by
  obtain ⟨i1, i2, i3, i4, i5, i6, i7⟩ := hinv
  rcases step_cases a h h1 hs with ⟨ok, -, hg, rfl⟩ | ⟨d, t, -, rfl⟩ | ⟨-, rfl⟩ | ⟨-, hret, rfl⟩ |
    ⟨ret, rfl, hr⟩
  · rcases Init_cases ok h with he | ⟨hu, he⟩ <;> rw [he]
    · exact ⟨i1, i2, i3, i4, i5, i6, i7⟩
    · unfold wake_invariant
      simp
  · rcases Acquire_cases d t h with he | ⟨hu, he⟩ <;> rw [he]
    · exact ⟨i1, i2, i3, i4, i5, i6, i7⟩
    · unfold wake_invariant
      simp only []
      refine ⟨?_, ?_, ?_, ?_, ?_, ?_, i7⟩
      · rintro (hc | hc) <;> cases hc
      · intro hpc _
        have hnw := i3 hpc
        rw [if_neg hnw]
        exact i2 hpc hu
      · intro _ hc
        cases hc
      · intro w hpc
        have := i4 w hpc
        split_ifs <;> omega
      · intro w _ hc
        cases hc
      · intro w r _ hc
        cases hc
  · rcases Exit_cases h with ⟨-, he⟩ | ⟨hu, he⟩ <;> rw [he]
    · exact ⟨i1, i2, i3, i4, i5, i6, i7⟩
    · unfold wake_invariant
      simp only []
      refine ⟨?_, ?_, ?_, ?_, ?_, ?_, i7⟩
      · rintro (hc | hc) <;> cases hc
      · intro _ hc
        exact absurd rfl hc
      · intro _ hc
        cases hc
      · intro w _
        omega
      · intro w _ hc
        cases hc
      · intro w r _ hc
        cases hc
  · unfold wake_invariant
    simp only []
    refine ⟨i1, ?_, ?_, ?_, ?_, ?_, ?_⟩
    · intro hc
      cases hc
    · intro hc
      cases hc
    · intro w hc
      cases hc
    · intro w hc
      cases hc
    · intro w r hc
      cases hc
    · intro w hc
      cases hc
  · rcases Routine_cases ret h h1 hr with ⟨hpc, hu, rfl⟩ | ⟨hpc, hi, hu, rfl⟩ | ⟨hpc, rfl⟩ |
      ⟨w, hpc, hab, hto, rfl⟩ | ⟨w, r, hpc, rfl⟩
    · unfold wake_invariant
      simp only []
      refine ⟨i1, ?_, ?_, ?_, ?_, ?_, ?_⟩
      · intro hc
        cases hc
      · intro hc
        cases hc
      · intro w hc
        cases hc
      · intro w hc
        cases hc
      · intro w r hc
        cases hc
      · intro w hc
        cases hc
    · unfold wake_invariant
      simp only []
      refine ⟨fun _ => i2 hpc hu, ?_, ?_, ?_, ?_, ?_, ?_⟩
      · intro hc
        cases hc
      · intro hc
        cases hc
      · intro w hc
        cases hc
      · intro w hc
        cases hc
      · intro w r hc
        cases hc
      · intro w hc
        cases hc
    · unfold wake_invariant
      simp only []
      refine ⟨i1, ?_, ?_, ?_, ?_, ?_, ?_⟩
      · intro hc
        cases hc
      · intro hc
        cases hc
      · intro w hc
        cases hc
      · intro w hc _
        simp only [Option.some.injEq, Pc.polling.injEq] at hc
        exact hc.symm
      · intro w r hc
        cases hc
      · intro w hc
        cases hc
    · unfold wake_invariant
      simp only []
      refine ⟨i1, ?_, ?_, ?_, ?_, ?_, ?_⟩
      · intro hc
        cases hc
      · intro hc
        cases hc
      · intro w1 hc
        simp only [Option.some.injEq, Pc.release_call.injEq] at hc
        exact hab hc.2
      · intro w1 hc
        cases hc
      · intro w1 r1 hc hst
        simp only [Option.some.injEq, Pc.release_call.injEq] at hc
        rw [← hc.1]
        exact i5 w hpc hst
      · intro w1 hc
        simp only [Option.some.injEq, Pc.release_call.injEq] at hc
        exact ha (by rw [hc.2])
    · rcases Release_cases h with ⟨hw, he⟩ | ⟨hw, he⟩ <;> rw [he]
      · unfold wake_invariant
        simp only []
        have h0 := i1 (Or.inr hw)
        refine ⟨fun _ => h0, fun _ _ => h0, ?_, ?_, ?_, ?_, ?_⟩
        · intro _ hc
          cases hc
        · intro w1 hc
          cases hc
        · intro w1 hc
          cases hc
        · intro w1 r1 hc
          cases hc
        · intro w1 hc
          cases hc
      · unfold wake_invariant
        simp only []
        refine ⟨fun _ => trivial, fun _ _ => trivial, fun _ => hw, ?_, ?_, ?_, ?_⟩
        · intro w1 hc
          cases hc
        · intro w1 hc
          cases hc
        · intro w1 r1 hc
          cases hc
        · intro w1 hc
          cases hc

theorem wake_invariant_run (acts : List Action) (garbage : timespec) (h : InteractionHandler)
    (hq : ∀ a ∈ acts, a ≠ Action.Routine poll_ret.error)
    (hr : run acts (ctor garbage) = some h) : wake_invariant h := by
  refine run_induction (fun a => a ≠ Action.Routine poll_ret.error) wake_invariant ?_ acts
    (ctor garbage) h hq ?_ hr
  · intro a x x1 ha hP hs
    exact wake_invariant_step a x x1 ha hP hs
  · unfold wake_invariant ctor
    simp

/-- C8: the boost is released only by a timeout that no request superseded.
In every state that an execution from the constructed handler reaches through
`Init`, `Acquire`, `Exit` and worker steps in which `poll` does not fail:
while `mState` is idle or waiting the eventfd holds no pending abort; when the
worker is about to call `Release` and that call makes the `PerfRel` call, the
`WaitForIdle` before it ended by timeout (not by an abort), and the timeout it
was given is the current `mWaitMs`, a value in `[1400, 5650]`; `Release` calls
`PerfRel` and sets the state to idle if and only if the state is still waiting
when it runs, and otherwise only reads the eventfd (counter 0 afterwards) and
leaves the state as it is. -/
theorem boost_released_only_by_timeout (acts : List Action) (garbage : timespec)
    (h : InteractionHandler)
    (hq : ∀ a ∈ acts, a ≠ Action.Routine poll_ret.error)
    (hr : run acts (ctor garbage) = some h) :
    ((h.mState = INTERACTION_STATE_IDLE ∨ h.mState = INTERACTION_STATE_WAITING) →
      h.mEventFd = 0) ∧
    (∀ wait_ms ret, h.mThread = some (Pc.release_call wait_ms ret) →
      (Release h).trace = Call.PerfRel :: h.trace →
      ret = poll_ret.timeout ∧ wait_ms = h.mWaitMs ∧ 1400 ≤ wait_ms ∧ wait_ms ≤ 5650) ∧
    (((Release h).trace = Call.PerfRel :: h.trace ∧
        (Release h).mState = INTERACTION_STATE_IDLE) ↔
      h.mState = INTERACTION_STATE_WAITING) ∧
    ((Release h).trace = Call.PerfRel :: h.trace ↔ h.mState = INTERACTION_STATE_WAITING) ∧
    (h.mState ≠ INTERACTION_STATE_WAITING →
      (Release h).trace = Call.read_eventfd :: h.trace ∧
      (Release h).mState = h.mState ∧ (Release h).mEventFd = 0) := by
  obtain ⟨i1, -, -, i4, -, i6, i7⟩ := wake_invariant_run acts garbage h hq hr
  obtain ⟨-, -, hhold, -, -⟩ := hold_invariant_run acts garbage h hr
  have hrel : (Release h).trace = Call.PerfRel :: h.trace ↔
      h.mState = INTERACTION_STATE_WAITING := by
    rcases Release_cases h with ⟨hw, he⟩ | ⟨hw, he⟩ <;> rw [he]
    · exact ⟨fun _ => hw, fun _ => rfl⟩
    · constructor
      · intro hc
        simp at hc
      · intro hc
        exact absurd hc hw
  refine ⟨i1, ?_, ?_, hrel, ?_⟩
  · intro w ret hpc hperf
    have hw := hrel.mp hperf
    have h0 := i1 (Or.inr hw)
    have hwm := i6 w ret hpc hw
    have hh := hhold (Or.inr hw)
    refine ⟨?_, hwm, ?_, ?_⟩
    · cases ret with
      | aborted =>
        have := i4 w hpc
        omega
      | timeout => rfl
      | error => exact absurd hpc (i7 w)
    · rw [hwm, hh.1]
      exact hh.2.1
    · rw [hwm, hh.1]
      exact hh.2.2
  · constructor
    · rintro ⟨hc, -⟩
      exact hrel.mp hc
    · intro hw
      refine ⟨hrel.mpr hw, ?_⟩
      rcases Release_cases h with ⟨-, he⟩ | ⟨hnw, -⟩
      · rw [he]
      · exact absurd hw hnw
  · intro hnw
    rcases Release_cases h with ⟨hw, -⟩ | ⟨-, he⟩
    · exact absurd hw hnw
    · rw [he]
      exact ⟨rfl, rfl, rfl⟩

/-- C8, at a concrete execution: `Init`, `Acquire(1350)`, the worker enters
`poll` with timeout 2000 and the `poll` runs out; the state is still waiting,
the eventfd is empty, and `Release` makes the `PerfRel` call. -/
theorem boost_released_only_by_timeout_witness :
    run [Action.Init true, Action.Acquire 1350 ⟨100, 0⟩, Action.Routine poll_ret.timeout,
        Action.Routine poll_ret.timeout, Action.Routine poll_ret.timeout] (ctor ⟨0, 0⟩)
        = some hold_2000_timed_out ∧
      hold_2000_timed_out.mEventFd = 0 ∧
      (Release hold_2000_timed_out).trace = Call.PerfRel :: hold_2000_timed_out.trace ∧
      (Release hold_2000_timed_out).mState = INTERACTION_STATE_IDLE :=
  ⟨by decide,
    (boost_released_only_by_timeout
      [Action.Init true, Action.Acquire 1350 ⟨100, 0⟩, Action.Routine poll_ret.timeout,
        Action.Routine poll_ret.timeout, Action.Routine poll_ret.timeout]
      ⟨0, 0⟩ hold_2000_timed_out (by decide) (by decide)).1 (Or.inr (by decide)),
    by decide, by decide⟩

/-! ## One `PerfLock` per cycle -/

theorem locks_released_nil : locks_released [] := by
  intro newer older hc
  simp at hc

theorem locks_released_cons (x : Call) (calls : List Call) (hx : x ≠ Call.PerfLock)
    (hc : locks_released calls) : locks_released (x :: calls) := by
  intro newer older hd
  rcases List.cons_eq_append_iff.mp hd with ⟨-, h2⟩ | ⟨n1, rfl, h2⟩
  · simp only [List.cons.injEq] at h2
    exact absurd h2.1.symm hx
  · exact List.mem_cons_of_mem x (hc n1 older h2)

theorem locks_released_cons_rel (calls : List Call) :
    locks_released (Call.PerfRel :: calls) := by
  intro newer older hd
  rcases List.cons_eq_append_iff.mp hd with ⟨-, h2⟩ | ⟨n1, rfl, -⟩
  · simp at h2
  · exact List.mem_cons_self Call.PerfRel n1

theorem locks_alternate_nil : locks_alternate [] := by
  intro newer between older hc
  simp at hc

theorem locks_alternate_cons (x : Call) (calls : List Call) (hx : x ≠ Call.PerfLock)
    (hc : locks_alternate calls) : locks_alternate (x :: calls) := by
  intro newer between older hd
  rcases List.cons_eq_append_iff.mp hd with ⟨-, h2⟩ | ⟨n1, rfl, h2⟩
  · simp only [List.cons.injEq] at h2
    exact absurd h2.1.symm hx
  · exact hc n1 between older h2

theorem locks_alternate_cons_lock (calls : List Call) (hr : locks_released calls)
    (hc : locks_alternate calls) : locks_alternate (Call.PerfLock :: calls) := by
  intro newer between older hd
  rcases List.cons_eq_append_iff.mp hd with ⟨-, h2⟩ | ⟨n1, rfl, h2⟩
  · simp only [List.cons.injEq, true_and] at h2
    exact hr between older h2.symm
  · exact hc n1 between older h2

theorem locks_alternate_tail (x : Call) (calls : List Call)
    (hc : locks_alternate (x :: calls)) : locks_alternate calls := by
  intro newer between older hd
  exact hc (x :: newer) between older (by rw [hd]; rfl)

/-- A trace in which the `PerfLock` calls alternate with `PerfRel` calls and
that has no `PerfRel` has at most one `PerfLock`. -/
theorem locks_alternate_count (calls : List Call) (ha : locks_alternate calls)
    (hn : Call.PerfRel ∉ calls) : calls.count Call.PerfLock ≤ 1 := by
  induction calls with
  | nil => simp
  | cons x rest ih =>
    have hrest := ih (locks_alternate_tail x rest ha)
      (fun hm => hn (List.mem_cons_of_mem x hm))
    by_cases hx : x = Call.PerfLock
    · subst hx
      have hnot : Call.PerfLock ∉ rest := by
        intro hm
        obtain ⟨between, older, hd⟩ := List.append_of_mem hm
        have hrel := ha [] between older (by rw [hd]; rfl)
        exact hn (List.mem_cons_of_mem _ (by rw [hd]; exact List.mem_append_left _ hrel))
      rw [List.count_cons, List.count_eq_zero.mpr hnot]
      simp
    · rw [List.count_cons]
      have hne : (x == Call.PerfLock) = false := by
        simpa using hx
      simp only [hne]
      simpa using hrest

theorem cycle_invariant_step (base : List Call) (a : Action) (h h1 : InteractionHandler)
    (calls : List Call)
    (hq : (∀ ok, a ≠ Action.Init ok) ∧ a ≠ Action.Exit ∧ a ≠ Action.Exit_join)
    (hinv : cycle_invariant base h calls) (hs : step a h = some h1) :
    ∃ calls1, cycle_invariant base h1 calls1 ∧
      (Call.PerfLock ∈ calls → Call.PerfLock ∈ calls1) ∧
      ((∃ d t, a = Action.Acquire d t) → Call.PerfLock ∈ calls1) := by
  obtain ⟨htr, halt, hrel, hlock, hu⟩ := hinv
  rcases step_cases a h h1 hs with ⟨ok, rfl, -, -⟩ | ⟨d, t, -, rfl⟩ | ⟨rfl, -⟩ | ⟨rfl, -, -⟩ |
    ⟨ret, rfl, hr⟩
  · exact absurd rfl (hq.1 ok)
  · by_cases hi : h.mState = INTERACTION_STATE_IDLE
    · have he := Acquire_accepted d t h hu (fun hc => hc.1 hi)
      rw [he]
      refine ⟨Call.notify_one :: Call.PerfLock :: calls, ⟨?_, ?_, ?_, ?_, ?_⟩, ?_, ?_⟩
      · simp [hi, htr]
      · exact locks_alternate_cons _ _ (by decide)
          (locks_alternate_cons_lock calls (hrel hi) halt)
      · intro hc
        cases hc
      · intro _
        simp
      · intro hc
        cases hc
      · intro hm
        simp [hm]
      · intro _
        simp
    · have hin := hlock hi
      rcases Acquire_cases d t h with he | ⟨-, he⟩ <;> rw [he]
      · exact ⟨calls, ⟨htr, halt, hrel, hlock, hu⟩, fun hm => hm, fun _ => hin⟩
      · by_cases hw : h.mState = INTERACTION_STATE_WAITING
        · refine ⟨Call.notify_one :: Call.write_eventfd :: calls, ⟨?_, ?_, ?_, ?_, ?_⟩, ?_, ?_⟩
          · simp [hw, htr]
          · exact locks_alternate_cons _ _ (by decide)
              (locks_alternate_cons _ _ (by decide) halt)
          · intro hc
            cases hc
          · intro _
            simp [hin]
          · intro hc
            cases hc
          · intro hm
            simp [hm]
          · intro _
            simp [hin]
        · refine ⟨Call.notify_one :: calls, ⟨?_, ?_, ?_, ?_, ?_⟩, ?_, ?_⟩
          · simp [hw, hi, htr]
          · exact locks_alternate_cons _ _ (by decide) halt
          · intro hc
            cases hc
          · intro _
            simp [hin]
          · intro hc
            cases hc
          · intro hm
            simp [hm]
          · intro _
            simp [hin]
  · exact absurd rfl hq.2.1
  · exact absurd rfl hq.2.2
  · have hna : ¬ ∃ d t, Action.Routine ret = Action.Acquire d t := by
      rintro ⟨d, t, hc⟩
      cases hc
    rcases Routine_cases ret h h1 hr with ⟨-, hun, -⟩ | ⟨-, hi, -, rfl⟩ | ⟨-, rfl⟩ |
      ⟨w, -, -, -, rfl⟩ | ⟨w, r, -, rfl⟩
    · exact absurd hun hu
    · refine ⟨calls, ⟨htr, halt, ?_, fun _ => hlock hi, ?_⟩, fun hm => hm,
        fun hc => absurd hc hna⟩
      · intro hc
        cases hc
      · intro hc
        cases hc
    · exact ⟨calls, ⟨htr, halt, hrel, hlock, hu⟩, fun hm => hm, fun hc => absurd hc hna⟩
    · exact ⟨calls, ⟨htr, halt, hrel, hlock, hu⟩, fun hm => hm, fun hc => absurd hc hna⟩
    · rcases Release_cases h with ⟨hw, he⟩ | ⟨hw, he⟩ <;> rw [he]
      · refine ⟨Call.PerfRel :: calls, ⟨?_, ?_, ?_, ?_, ?_⟩, ?_, fun hc => absurd hc hna⟩
        · simp [htr]
        · exact locks_alternate_cons _ _ (by decide) halt
        · intro _
          exact locks_released_cons_rel calls
        · intro hc
          exact absurd rfl hc
        · intro hc
          cases hc
        · intro hm
          simp [hm]
      · refine ⟨Call.read_eventfd :: calls, ⟨?_, ?_, ?_, ?_, hu⟩, ?_,
          fun hc => absurd hc hna⟩
        · simp [htr]
        · exact locks_alternate_cons _ _ (by decide) halt
        · intro hi
          exact locks_released_cons _ _ (by decide) (hrel hi)
        · intro hi
          simp [hlock hi]
        · intro hm
          simp [hm]

theorem cycle_invariant_run (base : List Call) :
    ∀ (acts : List Action) (h h1 : InteractionHandler) (calls : List Call),
      (∀ a ∈ acts, (∀ ok, a ≠ Action.Init ok) ∧ a ≠ Action.Exit ∧ a ≠ Action.Exit_join) →
      cycle_invariant base h calls → run acts h = some h1 →
      ∃ calls1, cycle_invariant base h1 calls1 ∧
        (Call.PerfLock ∈ calls → Call.PerfLock ∈ calls1) ∧
        ((∃ d t, Action.Acquire d t ∈ acts) → Call.PerfLock ∈ calls1) := by
  intro acts
  induction acts with
  | nil =>
    intro h h1 calls _ hinv hr
    simp only [run, Option.some.injEq] at hr
    subst hr
    refine ⟨calls, hinv, fun hm => hm, ?_⟩
    rintro ⟨d, t, hm⟩
    simp at hm
  | cons a rest ih =>
    intro h h1 calls hq hinv hr
    simp only [run] at hr
    cases hs : step a h with
    | none => simp [hs] at hr
    | some h2 =>
      simp only [hs] at hr
      obtain ⟨calls2, hinv2, hkeep2, hacq2⟩ :=
        cycle_invariant_step base a h h2 calls (hq a (List.mem_cons_self a rest)) hinv hs
      obtain ⟨calls1, hinv1, hkeep1, hacq1⟩ :=
        ih h2 h1 calls2 (fun b hb => hq b (List.mem_cons_of_mem a hb)) hinv2 hr
      refine ⟨calls1, hinv1, fun hm => hkeep1 (hkeep2 hm), ?_⟩
      rintro ⟨d, t, hm⟩
      rcases List.mem_cons.mp hm with heq | hin
      · exact hkeep1 (hacq2 ⟨d, t, heq.symm⟩)
      · exact hacq1 ⟨d, t, hin⟩

/-- C4: single apply per idle-to-active cycle.  `Acquire` calls `PerfLock` if
and only if it runs in state idle (then it is accepted and the new calls are
`PerfLock` and `notify_one`), and no worker step calls `PerfLock`.  In every
execution that starts in state idle and has no `Init` and no `Exit` step (so
only `Acquire` steps, of any duration and clock reading, and worker steps),
the calls made during the
execution have a `PerfRel` between any two `PerfLock`; and if they contain no
`PerfRel` while at least one `Acquire` step was taken, `PerfLock` was called
exactly once. -/
theorem single_apply_per_cycle (acts : List Action) (h0 h : InteractionHandler)
    (hidle : h0.mState = INTERACTION_STATE_IDLE)
    (hq : ∀ a ∈ acts, (∀ ok, a ≠ Action.Init ok) ∧ a ≠ Action.Exit ∧ a ≠ Action.Exit_join)
    (hr : run acts h0 = some h) :
    (∀ d t g,
      (g.mState = INTERACTION_STATE_IDLE →
        (Acquire d t g).trace = Call.notify_one :: Call.PerfLock :: g.trace) ∧
      (g.mState ≠ INTERACTION_STATE_IDLE →
        ∃ calls, (Acquire d t g).trace = calls ++ g.trace ∧ Call.PerfLock ∉ calls)) ∧
    (∀ ret g g1, Routine ret g = some g1 →
      ∃ calls, g1.trace = calls ++ g.trace ∧ Call.PerfLock ∉ calls) ∧
    ∃ calls, h.trace = calls ++ h0.trace ∧
      (∀ newer between older,
        calls = newer ++ Call.PerfLock :: (between ++ Call.PerfLock :: older) →
        Call.PerfRel ∈ between) ∧
      (Call.PerfRel ∉ calls → (∃ d t, Action.Acquire d t ∈ acts) →
        calls.count Call.PerfLock = 1) := by
  refine ⟨?_, ?_, ?_⟩
  · intro d t g
    constructor
    · intro hi
      have hu : g.mState ≠ INTERACTION_STATE_UNINITIALIZED := by
        rw [hi]
        decide
      rw [Acquire_accepted d t g hu (fun hc => hc.1 hi)]
      simp [hi]
    · intro hi
      rcases Acquire_cases d t g with he | ⟨-, he⟩ <;> rw [he]
      · exact ⟨[], rfl, by simp⟩
      · by_cases hw : g.mState = INTERACTION_STATE_WAITING
        · exact ⟨[Call.notify_one, Call.write_eventfd], by simp [hw], by simp⟩
        · exact ⟨[Call.notify_one], by simp [hw, hi], by simp⟩
  · intro ret g g1 hstep
    rcases Routine_cases ret g g1 hstep with ⟨-, -, rfl⟩ | ⟨-, -, -, rfl⟩ | ⟨-, rfl⟩ |
      ⟨w, -, -, -, rfl⟩ | ⟨w, r, -, rfl⟩
    · exact ⟨[], rfl, by simp⟩
    · exact ⟨[], rfl, by simp⟩
    · exact ⟨[], rfl, by simp⟩
    · exact ⟨[], rfl, by simp⟩
    · rcases Release_cases g with ⟨-, he⟩ | ⟨-, he⟩ <;> rw [he]
      · exact ⟨[Call.PerfRel], rfl, by simp⟩
      · exact ⟨[Call.read_eventfd], rfl, by simp⟩
  · have hstart : cycle_invariant h0.trace h0 [] := by
      refine ⟨rfl, locks_alternate_nil, fun _ => locks_released_nil, ?_, ?_⟩
      · intro hc
        exact absurd hidle hc
      · rw [hidle]
        decide
    obtain ⟨calls, ⟨htr, halt, -, -, -⟩, -, hacq⟩ :=
      cycle_invariant_run h0.trace acts h0 h [] hq hstart hr
    refine ⟨calls, htr, halt, ?_⟩
    intro hnorel hex
    have hle := locks_alternate_count calls halt hnorel
    have hpos := List.count_pos_iff.mpr (hacq hex)
    omega

/-- C4, at a concrete execution from the idle handler: three `Acquire` calls
(the first applies the boost, the second extends the hold while the worker
polls, the third is absorbed) and the worker steps in between; `PerfLock` is
in the trace once. -/
theorem single_apply_per_cycle_witness :
    ∃ h, run [Action.Acquire 1350 ⟨100, 0⟩, Action.Routine poll_ret.timeout,
        Action.Routine poll_ret.timeout, Action.Acquire 1150 t_500,
        Action.Acquire 800 t_500] idle_after_init = some h ∧
      h.trace.count Call.PerfLock = 1 := by
  have hrun : run [Action.Acquire 1350 ⟨100, 0⟩, Action.Routine poll_ret.timeout,
      Action.Routine poll_ret.timeout, Action.Acquire 1150 t_500,
      Action.Acquire 800 t_500] idle_after_init
      = some (Acquire 1150 t_500 hold_2000_waiting) := by decide
  refine ⟨Acquire 1150 t_500 hold_2000_waiting, hrun, ?_⟩
  obtain ⟨-, -, calls, htr, -, hone⟩ := single_apply_per_cycle _ idle_after_init
    (Acquire 1150 t_500 hold_2000_waiting) (by decide) (by decide) hrun
  have hcalls : calls = (Acquire 1150 t_500 hold_2000_waiting).trace := by
    rw [htr]
    simp [idle_after_init, Init, ctor]
  rw [← hcalls]
  refine hone ?_ ⟨1350, ⟨100, 0⟩, by simp⟩
  rw [hcalls]
  decide

/-! ## Shutdown during a wait -/

theorem exit_invariant_step (base : List Call) (a : Action) (h h1 : InteractionHandler)
    (calls : List Call)
    (hq : (∀ ok, a ≠ Action.Init ok) ∧ a ≠ Action.Exit ∧ a ≠ Action.Exit_join)
    (hinv : exit_invariant base h calls) (hs : step a h = some h1) :
    ∃ calls1, exit_invariant base h1 calls1 ∧
      worker_steps [a] + steps_to_return h1.mThread = steps_to_return h.mThread := by
  obtain ⟨hu, htr, hrel, hlock, hthr, hfd⟩ := hinv
  rcases step_cases a h h1 hs with ⟨ok, rfl, -, -⟩ | ⟨d, t, rfl, rfl⟩ | ⟨rfl, -⟩ | ⟨rfl, -, -⟩ |
    ⟨ret, rfl, hr⟩
  · exact absurd rfl (hq.1 ok)
  · rw [Acquire_discarded d t h (Or.inl hu)]
    exact ⟨calls, ⟨hu, htr, hrel, hlock, hthr, hfd⟩, by simp [worker_steps]⟩
  · exact absurd rfl hq.2.1
  · exact absurd rfl hq.2.2
  · rcases Routine_cases ret h h1 hr with ⟨hpc, -, rfl⟩ | ⟨-, -, hnu, -⟩ | ⟨hpc, rfl⟩ |
      ⟨w, hpc, -, -, rfl⟩ | ⟨w, r, hpc, rfl⟩
    · refine ⟨calls, ⟨hu, htr, hrel, hlock, by simp, ?_⟩, by simp [worker_steps, steps_to_return, hpc]⟩
      rintro (hc | ⟨w, hc⟩) <;> cases hc
    · exact absurd hu hnu
    · refine ⟨calls, ⟨hu, htr, hrel, hlock, by simp, fun _ => hfd (Or.inl hpc)⟩,
        by simp [worker_steps, steps_to_return, hpc]⟩
    · refine ⟨calls, ⟨hu, htr, hrel, hlock, by simp, ?_⟩,
        by simp [worker_steps, steps_to_return, hpc]⟩
      rintro (hc | ⟨w1, hc⟩) <;> cases hc
    · have hnw : h.mState ≠ INTERACTION_STATE_WAITING := by
        rw [hu]
        decide
      rcases Release_cases h with ⟨hw, -⟩ | ⟨-, he⟩
      · exact absurd hw hnw
      · rw [he]
        refine ⟨Call.read_eventfd :: calls, ⟨hu, by simp [htr], by simp [hrel],
          by simp [hlock], by simp, ?_⟩, by simp [worker_steps, steps_to_return, hpc]⟩
        rintro (hc | ⟨w1, hc⟩) <;> cases hc

theorem worker_steps_cons (a : Action) (rest : List Action) :
    worker_steps (a :: rest) = worker_steps [a] + worker_steps rest := by
  cases a <;> simp [worker_steps]
  omega

theorem exit_invariant_run (base : List Call) :
    ∀ (acts : List Action) (h h1 : InteractionHandler) (calls : List Call),
      (∀ a ∈ acts, (∀ ok, a ≠ Action.Init ok) ∧ a ≠ Action.Exit ∧ a ≠ Action.Exit_join) →
      exit_invariant base h calls → run acts h = some h1 →
      ∃ calls1, exit_invariant base h1 calls1 ∧
        worker_steps acts + steps_to_return h1.mThread = steps_to_return h.mThread := by
  intro acts
  induction acts with
  | nil =>
    intro h h1 calls _ hinv hr
    simp only [run, Option.some.injEq] at hr
    subst hr
    exact ⟨calls, hinv, by simp [worker_steps]⟩
  | cons a rest ih =>
    intro h h1 calls hq hinv hr
    simp only [run] at hr
    cases hs : step a h with
    | none => simp [hs] at hr
    | some h2 =>
      simp only [hs] at hr
      obtain ⟨calls2, hinv2, hm2⟩ :=
        exit_invariant_step base a h h2 calls (hq a (List.mem_cons_self a rest)) hinv hs
      obtain ⟨calls1, hinv1, hm1⟩ :=
        ih h2 h1 calls2 (fun b hb => hq b (List.mem_cons_of_mem a hb)) hinv2 hr
      refine ⟨calls1, hinv1, ?_⟩
      rw [worker_steps_cons]
      omega

/-- C6: shutdown in the middle of a wait.  When `Exit` runs its locked section
while `mState` is waiting (the worker is between its unlock and its
`Release`), it writes one abort to the eventfd, sets the state to
uninitialized and notifies.  In every continuation made of worker steps and
`Acquire` calls: the state stays uninitialized, no `PerfRel` is called, each
worker step brings the thread one position closer to the return of `Routine`
(at most four steps: the call of `WaitForIdle`, the return of `poll`,
`Release`, the state check), the thread is never blocked before that (its
`poll` returns as aborted), and at the state check `Routine` returns.  The
worker steps alone do lead to the return. -/
theorem Exit_mid_wait (h : InteractionHandler)
    (hw : h.mState = INTERACTION_STATE_WAITING)
    (hpc : h.mThread = some Pc.wait_call ∨ (∃ wait_ms, h.mThread = some (Pc.polling wait_ms)) ∨
      ∃ wait_ms ret, h.mThread = some (Pc.release_call wait_ms ret)) :
    Exit h =
      { h with
        mState := INTERACTION_STATE_UNINITIALIZED
        mEventFd := h.mEventFd + 1
        trace := Call.notify_all :: Call.write_eventfd :: h.trace } ∧
    (∀ acts h1,
      (∀ a ∈ acts, (∀ ok, a ≠ Action.Init ok) ∧ a ≠ Action.Exit ∧ a ≠ Action.Exit_join) →
      run acts (Exit h) = some h1 →
      h1.mState = INTERACTION_STATE_UNINITIALIZED ∧
      (∃ calls, h1.trace = calls ++ (Exit h).trace ∧ Call.PerfRel ∉ calls) ∧
      worker_steps acts + steps_to_return h1.mThread = steps_to_return h.mThread ∧
      (h1.mThread ≠ some Pc.returned → (Routine poll_ret.aborted h1).isSome = true) ∧
      (h1.mThread = some Pc.cond_wait →
        ∀ ret, Routine ret h1 = some { h1 with mThread := some Pc.returned })) ∧
    (∃ h1,
      run (List.replicate (steps_to_return h.mThread) (Action.Routine poll_ret.aborted))
        (Exit h) = some h1 ∧
      h1.mThread = some Pc.returned ∧ h1.mState = INTERACTION_STATE_UNINITIALIZED ∧
      h1.trace = Call.read_eventfd :: (Exit h).trace) := by
  have hnu : h.mState ≠ INTERACTION_STATE_UNINITIALIZED := by
    rw [hw]
    decide
  have hexit : Exit h =
      { h with
        mState := INTERACTION_STATE_UNINITIALIZED
        mEventFd := h.mEventFd + 1
        trace := Call.notify_all :: Call.write_eventfd :: h.trace } := by
    rcases Exit_cases h with ⟨hu, -⟩ | ⟨-, he⟩
    · exact absurd hu hnu
    · exact he
  have hthread : (Exit h).mThread = h.mThread := by rw [hexit]
  have hstart : exit_invariant (Exit h).trace (Exit h) [] := by
    refine ⟨by rw [hexit], rfl, by simp, by simp, ?_, ?_⟩
    · rw [hthread]
      rcases hpc with hc | ⟨w, hc⟩ | ⟨w, r, hc⟩ <;> rw [hc] <;> simp
    · intro _
      rw [hexit]
      exact Nat.succ_pos _
  refine ⟨hexit, ?_, ?_⟩
  · intro acts h1 hq hr
    obtain ⟨calls, ⟨hu1, htr1, hrel1, -, hthr1, hfd1⟩, hmeasure⟩ :=
      exit_invariant_run (Exit h).trace acts (Exit h) h1 [] hq hstart hr
    rw [hthread] at hmeasure
    refine ⟨hu1, ⟨calls, htr1, hrel1⟩, hmeasure, ?_, ?_⟩
    · intro hnr
      cases hth : h1.mThread with
      | none => exact absurd hth hthr1
      | some pc =>
        cases pc with
        | cond_wait => simp [Routine, hth, hu1]
        | wait_call => simp [Routine, hth]
        | polling w =>
          have hpos := hfd1 (Or.inr ⟨w, hth⟩)
          simp [Routine, hth, WaitForIdle, hpos]
        | release_call w r => simp [Routine, hth]
        | returned => exact absurd hth hnr
    · intro hc ret
      simp [Routine, hc, hu1]
  · rcases hpc with hc | ⟨w, hc⟩ | ⟨w, r, hc⟩
    · rw [hc, hexit]
      simp [steps_to_return, List.replicate, run, step, Routine, hc, WaitForIdle, Release]
    · rw [hc, hexit]
      simp [steps_to_return, List.replicate, run, step, Routine, hc, WaitForIdle, Release]
    · rw [hc, hexit]
      simp [steps_to_return, List.replicate, run, step, Routine, hc, WaitForIdle, Release]

/-- C6, at the hold of 2000 ms with the worker in `poll`: after `Exit` the
three remaining worker steps end `Routine`; the trace gains the read of the
eventfd and no `PerfRel`. -/
theorem Exit_mid_wait_witness :
    (Exit hold_2000_waiting).mState = INTERACTION_STATE_UNINITIALIZED ∧
      (Exit hold_2000_waiting).mEventFd = 1 ∧
      ∃ h1, run [Action.Routine poll_ret.aborted, Action.Routine poll_ret.aborted,
          Action.Routine poll_ret.aborted] (Exit hold_2000_waiting) = some h1 ∧
        h1.mThread = some Pc.returned ∧ h1.mState = INTERACTION_STATE_UNINITIALIZED ∧
        h1.trace = Call.read_eventfd :: (Exit hold_2000_waiting).trace :=
  ⟨by decide, by decide,
    (Exit_mid_wait hold_2000_waiting (by decide) (Or.inr (Or.inl ⟨2000, by decide⟩))).2.2⟩

/-! ## No lost wake-up -/

/-- C7: no lost wake-up.  Let the worker have set `mState` to waiting and
released the lock, and let an `Acquire` be accepted there, before the `poll`
of `WaitForIdle` returns.  Whether the `Acquire` runs before the worker calls
`WaitForIdle(mWaitMs)` or right after that call: the `poll` cannot time out,
it returns as aborted; the `Release` that follows calls no `PerfRel`, leaves
the state at `INTERACTION_STATE_INTERACTION` and the counter of the eventfd at
0; and the next wait cycle of the worker polls with the `mWaitMs` that this
`Acquire` set. -/
theorem no_lost_wakeup (duration : Int) (cur_timespec : timespec) (h : InteractionHandler)
    (r1 r2 r3 r4 : poll_ret)
    (hw : h.mState = INTERACTION_STATE_WAITING)
    (hpc : h.mThread = some Pc.wait_call)
    (hacc : h.mDurationMs < finalDuration h duration ∨
      (finalDuration h duration ≤ h.mDurationMs ∧
        h.mDurationMs - finalDuration h duration <
          CalcTimespecDiffMs h.mLastTimespec cur_timespec)) :
    run [Action.Acquire duration cur_timespec, Action.Routine r1] h =
      some { h with
        mLastTimespec := cur_timespec
        mDurationMs := finalDuration h duration
        mWaitMs := finalDuration h duration
        mState := INTERACTION_STATE_INTERACTION
        mEventFd := h.mEventFd + 1
        mThread := some (Pc.polling (finalDuration h duration))
        trace := Call.notify_one :: Call.write_eventfd :: h.trace } ∧
    run [Action.Acquire duration cur_timespec, Action.Routine r1,
      Action.Routine poll_ret.timeout] h = none ∧
    run [Action.Routine r1, Action.Acquire duration cur_timespec,
      Action.Routine poll_ret.timeout] h = none ∧
    run [Action.Acquire duration cur_timespec, Action.Routine r1,
      Action.Routine poll_ret.aborted, Action.Routine r2] h =
      some { h with
        mLastTimespec := cur_timespec
        mDurationMs := finalDuration h duration
        mWaitMs := finalDuration h duration
        mState := INTERACTION_STATE_INTERACTION
        mEventFd := 0
        mThread := some Pc.cond_wait
        trace := Call.read_eventfd :: Call.notify_one :: Call.write_eventfd :: h.trace } ∧
    run [Action.Routine r1, Action.Acquire duration cur_timespec,
      Action.Routine poll_ret.aborted, Action.Routine r2] h =
      run [Action.Acquire duration cur_timespec, Action.Routine r1,
        Action.Routine poll_ret.aborted, Action.Routine r2] h ∧
    run [Action.Acquire duration cur_timespec, Action.Routine r1,
      Action.Routine poll_ret.aborted, Action.Routine r2, Action.Routine r3,
      Action.Routine r4] h =
      some { h with
        mLastTimespec := cur_timespec
        mDurationMs := finalDuration h duration
        mWaitMs := finalDuration h duration
        mState := INTERACTION_STATE_WAITING
        mEventFd := 0
        mThread := some (Pc.polling (finalDuration h duration))
        trace := Call.read_eventfd :: Call.notify_one :: Call.write_eventfd :: h.trace } := by
  have hu : h.mState ≠ INTERACTION_STATE_UNINITIALIZED := by
    rw [hw]
    decide
  have hacq : Acquire duration cur_timespec h =
      { h with
        mLastTimespec := cur_timespec
        mDurationMs := finalDuration h duration
        mWaitMs := finalDuration h duration
        mState := INTERACTION_STATE_INTERACTION
        mEventFd := h.mEventFd + 1
        trace := Call.notify_one :: Call.write_eventfd :: h.trace } := by
    rw [Acquire_accepted duration cur_timespec h hu
      (Acquire_not_covered duration cur_timespec h hacc)]
    simp [hw]
  have hacq2 : Acquire duration cur_timespec { h with mThread := some (Pc.polling h.mWaitMs) } =
      { h with
        mLastTimespec := cur_timespec
        mDurationMs := finalDuration h duration
        mWaitMs := finalDuration h duration
        mState := INTERACTION_STATE_INTERACTION
        mEventFd := h.mEventFd + 1
        mThread := some (Pc.polling h.mWaitMs)
        trace := Call.notify_one :: Call.write_eventfd :: h.trace } := by
    rw [Acquire_accepted duration cur_timespec
      { h with mThread := some (Pc.polling h.mWaitMs) } hu
      (Acquire_not_covered duration cur_timespec h hacc)]
    simp [hw, finalDuration]
  refine ⟨?_, ?_, ?_, ?_, ?_, ?_⟩
  · simp [run, step, hacq, Routine, hpc]
  · simp [run, step, hacq, Routine, hpc, WaitForIdle]
  · simp [run, step, Routine, hpc, WaitForIdle, hacq2]
  · simp [run, step, hacq, Routine, hpc, WaitForIdle, Release]
  · simp [run, step, hacq, Routine, hpc, WaitForIdle, Release, hacq2, finalDuration]
  · simp [run, step, hacq, Routine, hpc, WaitForIdle, Release]

/-- C7, at the hold of 2000 ms: the worker has released the lock, an `Acquire`
with effective duration 1800 ms is accepted, then the worker calls
`WaitForIdle`; its `poll` cannot time out, and after the aborted return and
`Release` the worker polls again, with timeout 1800. -/
theorem no_lost_wakeup_witness :
    run [Action.Init true, Action.Acquire 1350 ⟨100, 0⟩, Action.Routine poll_ret.timeout]
        (ctor ⟨0, 0⟩) = some hold_2000_unlocked ∧
      run [Action.Acquire 1150 t_500, Action.Routine poll_ret.timeout,
        Action.Routine poll_ret.timeout] hold_2000_unlocked = none ∧
      (run [Action.Acquire 1150 t_500, Action.Routine poll_ret.timeout,
        Action.Routine poll_ret.aborted, Action.Routine poll_ret.timeout,
        Action.Routine poll_ret.timeout, Action.Routine poll_ret.timeout]
        hold_2000_unlocked).map (fun x => (x.mThread, x.mEventFd, x.trace)) =
        some (some (Pc.polling 1800), 0,
          [Call.read_eventfd, Call.notify_one, Call.write_eventfd, Call.notify_one,
            Call.PerfLock]) :=
  ⟨by decide,
    (no_lost_wakeup 1150 t_500 hold_2000_unlocked poll_ret.timeout poll_ret.timeout
      poll_ret.timeout poll_ret.timeout (by decide) (by decide) (Or.inr (by decide))).2.1,
    by decide⟩

end InteractionHandler

end Power
